import Mathlib

set_option maxRecDepth 100000

/-!
Verification development for the SQL-of-Thought evaluation pipeline.

The definitions below are shallow embeddings of the Python source files
`utils.py`, `run_eval.py`, `analyze_by_subproblems.py` and `prompts.py`:
pure string processing is translated to functions on `List Char` / `String`,
the SQL engine (`sqlite3`), the text-generation backend (`call_agent`'s API
call) and the JSON decoder (`json.loads`) are modelled as explicit function
parameters ("oracles"), and Python exceptions are modelled with `Except`.
Character-level operations are restricted to ASCII, which is the alphabet
relevant to every property considered here.
-/

/-- ASCII whitespace, the characters matched by Python's `\s` and stripped by
`str.strip()` (restricted to ASCII): space, tab, newline, carriage return,
vertical tab, form feed. -/
def isPyWs (c : Char) : Bool :=
  (c == ' ') || (c == '\t') || (c == '\n') || (c == '\r') || (c == '\x0b') || (c == '\x0c')

/-- Word characters of Python's regex `\w` / the word-boundary assertion `\b`
(ASCII fragment): letters, digits, underscore. -/
def isWordChar (c : Char) : Bool :=
  (decide ('a' ≤ c) && decide (c ≤ 'z')) ||
  (decide ('A' ≤ c) && decide (c ≤ 'Z')) ||
  (decide ('0' ≤ c) && decide (c ≤ '9')) ||
  (c == '_')

/-- ASCII lower-casing, the effect of Python's `str.lower()` on ASCII text. -/
def lowerChar (c : Char) : Char :=
  if 65 ≤ c.toNat ∧ c.toNat ≤ 90 then Char.ofNat (c.toNat + 32) else c

/-- ASCII upper-casing, the effect of Python's `str.upper()` on ASCII text. -/
def upperChar (c : Char) : Char :=
  if 97 ≤ c.toNat ∧ c.toNat ≤ 122 then Char.ofNat (c.toNat - 32) else c

/-- The backtick character (code 96), written via `Char.ofNat`. -/
def backtick : Char := Char.ofNat 96

/-- Python `str.strip()`: drop leading and trailing whitespace. -/
def stripBoth (l : List Char) : List Char :=
  ((l.dropWhile isPyWs).reverse.dropWhile isPyWs).reverse

/-- Does the regex `\b(select|insert)\b` (with `re.IGNORECASE`) match at the
head of `l`, assuming the position is at a word boundary?  True iff the first
six characters lower-case to `select` or `insert` and the following character
(if any) is not a word character.  (`select`/`insert` begin with word
characters, so the boundary before the match is equivalent to the previous
character not being a word character; that part is handled by the caller.) -/
def kwAt (l : List Char) : Bool :=
  (((l.take 6).map lowerChar == ("select").data) ||
   ((l.take 6).map lowerChar == ("insert").data)) &&
  (match l.drop 6 with
   | [] => true
   | c :: _ => !isWordChar c)

/-- Embedding of `re.search(r'\b(select|insert)\b', sql, re.IGNORECASE)`: scan left to
right for the first position that is at a word boundary and matches one of
the keywords; return the suffix of the input starting at the match.
`prevW` records whether the previous character was a word character. -/
def findKwSuffix : Bool → List Char → Option (List Char)
  | _, [] => none
  | prevW, c :: rest =>
    if !prevW && kwAt (c :: rest) then some (c :: rest)
    else findKwSuffix (isWordChar c) rest

/-- Embedding of `utils.postprocess_sql`, step 1: if the keyword search matched, discard
everything before the match (`sql = sql[match.start():]`). -/
def ppStage1 (l : List Char) : List Char :=
  match findKwSuffix false l with
  | some suf => suf
  | none => l

/-- Embedding of `utils.postprocess_sql`, step 2: `sql.strip().lower()`. -/
def ppStage2 (l : List Char) : List Char :=
  (stripBoth l).map lowerChar

/-- Scanner for `re.sub(r"```sql|```", "", sql)`: at each position try the
six-character fence first, then the three-character fence, deleting matches;
`fuel` bounds the recursion by the length of the input (each step consumes at
least one character). -/
def removeFencesAux : Nat → List Char → List Char
  | 0, l => l
  | _ + 1, [] => []
  | n + 1, c :: rest =>
    if (c :: rest).take 6 == ("```sql").data then removeFencesAux n ((c :: rest).drop 6)
    else if (c :: rest).take 3 == ("```").data then removeFencesAux n ((c :: rest).drop 3)
    else c :: removeFencesAux n rest

/-- Embedding of `re.sub(r"```sql|```", "", sql)` (`utils.postprocess_sql`, steps 3 and 5). -/
def removeFences (l : List Char) : List Char :=
  removeFencesAux l.length l

/-- Embedding of `re.sub(r"^sql[:\s]*", "", sql)` (`utils.postprocess_sql`, step 4):
if the text starts with `sql`, remove it together with the following run of
colons and whitespace. -/
def stripSqlLabel (l : List Char) : List Char :=
  if l.take 3 == ("sql").data then
    (l.drop 3).dropWhile (fun c => (c == ':') || isPyWs c)
  else l

/-- Embedding of `sql.replace("`", "")` (`utils.postprocess_sql`, step 6). -/
def ppStage6 (l : List Char) : List Char :=
  l.filter (fun c => !(c == backtick))

/-- Scanner for `re.sub(r"\s+", " ", sql)`: each maximal whitespace run is
replaced by a single space.  `inRun` records whether the previous character
belonged to a whitespace run already emitted as a space. -/
def collapseWsAux : Bool → List Char → List Char
  | _, [] => []
  | inRun, c :: rest =>
    if isPyWs c then
      if inRun then collapseWsAux true rest
      else ' ' :: collapseWsAux true rest
    else c :: collapseWsAux false rest

/-- Embedding of `re.sub(r"\s+", " ", sql)`. -/
def collapseCore (l : List Char) : List Char :=
  collapseWsAux false l

/-- Embedding of `re.sub(r"\s+", " ", sql).strip()` (`utils.postprocess_sql`, step 7). -/
def ppStage7 (l : List Char) : List Char :=
  stripBoth (collapseCore l)

/-- Scanner for `re.sub(r"\s+,", ",", sql)`, operating on the reversed list:
a comma switches the flag on, and while the flag is on, whitespace characters
(which in the original order form the run directly before that comma) are
dropped. -/
def rmWsCommaRevAux : Bool → List Char → List Char
  | _, [] => []
  | afterComma, c :: rest =>
    if afterComma && isPyWs c then rmWsCommaRevAux true rest
    else if c == ',' then ',' :: rmWsCommaRevAux true rest
    else c :: rmWsCommaRevAux false rest

/-- Embedding of `re.sub(r"\s+,", ",", sql)` (`utils.postprocess_sql`, step 8): delete
every maximal whitespace run that directly precedes a comma. -/
def rmWsComma (l : List Char) : List Char :=
  (rmWsCommaRevAux false l.reverse).reverse

/-- Embedding of `utils.postprocess_sql`, step 9:
`if sql.endswith(";"): sql = sql[:-1].strip()`. -/
def ppStage9 (l : List Char) : List Char :=
  if l.getLast? == some ';' then stripBoth l.dropLast else l

/-- The whole `utils.postprocess_sql` pipeline on character lists. -/
def ppList (l : List Char) : List Char :=
  ppStage9 (rmWsComma (ppStage7 (ppStage6 (removeFences (stripSqlLabel
    (removeFences (ppStage2 (ppStage1 l))))))))

/-- Embedding of `utils.postprocess_sql`: the SQL normalizer. -/
def postprocess_sql (s : String) : String :=
  ⟨ppList s.data⟩

/-!
## Result comparison (`utils.normalize_rows`, `utils.exec_query`, `utils.query_execution`)
-/

/-- Cell values of SQLite result rows, restricted to the inhabitants relevant
here: integers, text, and NULL.  (`sqlite3` rows can also carry floats and
blobs; none of the verified properties depends on them.) -/
inductive Value
  | int (n : Int)
  | text (s : String)
  | null
deriving DecidableEq, Repr

/-- Python `str(...)` applied to a cell, as a character list:
`str(1) = "1"`, `str("a") = "a"`, `str(None) = "None"`.  Python compares
strings by code points, which is exactly the lexicographic order on
`List Char`, so the textual representation is kept as a character list. -/
def pyStr : Value → List Char
  | Value.int n => (toString n).data
  | Value.text s => s.data
  | Value.null => ("None").data

/-- Embedding of `utils.normalize_rows`:
`sorted([tuple(sorted(map(str, r))) for r in rows])` — coerce every cell to
its textual representation, sort the cells of each row, then sort the rows
(ascending lexicographic order, Python's `sorted`). -/
def normalize_rows (rows : List (List Value)) : List (List (List Char)) :=
  List.insertionSort (fun a b => a ≤ b)
    (rows.map (fun r => List.insertionSort (fun a b => a ≤ b) (r.map pyStr)))

/-- The SQL executor (`utils.exec_query` / `sqlite3`), modelled as an opaque
deterministic function from a database file path and a SQL string to either
a result set or an error message.  `exec_query` never raises: a missing
database file is returned as an error value in the source. -/
def ExecFn : Type := String → String → Except String (List (List Value))

/-- The database file path built by `utils.query_execution` and by the
Valid-SQL metric in `run_eval.evaluate`:
`f"../spider/database/{db_id}/{db_id}.sqlite"`. -/
def dbPath (db_id : String) : String :=
  "../spider/database/" ++ db_id ++ "/" ++ db_id ++ ".sqlite"

/-- One Spider sample (the fields of `item` used by the pipeline). -/
structure Item where
  question : String
  query : String
  db_id : String
deriving DecidableEq, Repr

/-- Embedding of `utils.query_execution`: post-process both the candidate and the gold SQL,
execute each against the sample's database, and compare normalized rows.
Returns `(exec_match, gen_err)` where `gen_err` is the candidate's execution
error (`none` when the candidate executed successfully, whatever happened to
the gold query). -/
def query_execution (ex : ExecFn) (item : Item) (sql : String) : Bool × Option String :=
  match ex (dbPath item.db_id) (postprocess_sql item.query),
        ex (dbPath item.db_id) (postprocess_sql sql) with
  | Except.ok goldRows, Except.ok genRows =>
    (decide (normalize_rows genRows = normalize_rows goldRows), none)
  | _, Except.ok _ => (false, none)
  | _, Except.error e => (false, some e)

/-!
## Prompt templates (`prompts.py`)

Each `Template(...).substitute(...)` in `prompts.py` is a literal text with
`$var` placeholders; it is embedded as string concatenation.  Brace
characters appearing literally in the templates are written with `\x7b` /
`\x7d` escapes.
-/

/-- Embedding of `prompts.alt_schema_linking_agent_prompt`. -/
def alt_schema_linking_agent_prompt (question table_schema : String) : String :=
  "You are a Schema Linking Agent in an NL2SQL framework. Return the relevant schema links for generating SQL query for the question.\n\nGiven:\n- A natural language question\n- Database schemas with columns, primary keys (PK), and foreign keys (FK)\n\nCross-check your schema for:\n- Missing or incorrect FK-PK relationships and add them\n- Incomplete column selections (especially join keys)\n- Table alias mismatches\n- Linkage errors that would lead to incorrect joins or groupBy clauses\n\nQuestion: "
  ++ question ++
  "\n\nTable Schema:\n"
  ++ table_schema ++
  "\n\nReturn the schema links in given format:\n\nTable: primary_key_col, foreign_key_col, col1, col2, ... all other columns in Table\n\nONLY list relevant tables and columns and Foreign Keys in given format and no other extra characters.\n"

/-- Embedding of `prompts.subproblem_agent_prompt`. -/
def subproblem_agent_prompt (question schema : String) : String :=
  "You are a Subproblem Agent in an NL2SQL system. Break down the question into subproblems.\n\nQuestion: "
  ++ question ++
  "\n\nSchema:\n"
  ++ schema ++
  "\n\nIdentify SQL clauses needed (SELECT, WHERE, JOIN, GROUP BY, HAVING, ORDER BY, LIMIT, etc.)\n\nReturn JSON format:\n\x7b\n  \"clauses\": [\"SELECT\", \"WHERE\", \"JOIN\"],\n  \"subproblems\": [\n    \x7b\"clause\": \"SELECT\", \"description\": \"...\"\x7d,\n    \x7b\"clause\": \"WHERE\", \"description\": \"...\"\x7d\n  ]\n\x7d\n\nReturn ONLY valid JSON, no extra text.\n"

/-- Embedding of `prompts.query_plan_agent_prompt`. -/
def query_plan_agent_prompt (question schema subproblems : String) : String :=
  "You are a Query Plan Agent. Create a step-by-step natural language plan for SQL generation.\n\nQuestion: "
  ++ question ++
  "\n\nSchema:\n"
  ++ schema ++
  "\n\nSubproblems:\n"
  ++ subproblems ++
  "\n\nCreate a clear plan with:\n1. Which tables to use\n2. What columns to select\n3. Join conditions\n4. Filter conditions\n5. Grouping/aggregation if needed\n6. Sorting/limiting if needed\n\nReturn a concise bullet-pointed plan. Do NOT write SQL code.\n"

/-- Embedding of `prompts.sql_agent_prompt`. -/
def sql_agent_prompt (question plan schema : String) : String :=
  "You are a SQL Generation Agent. Generate SQL query based on the plan.\n\nQuestion: "
  ++ question ++
  "\n\nSchema:\n"
  ++ schema ++
  "\n\nPlan:\n"
  ++ plan ++
  "\n\nGenerate a valid SQL query that:\n- Follows standard SQL syntax\n- Uses correct table and column names from schema\n- Implements all steps in the plan\n- Is executable on SQLite\n\nReturn ONLY the SQL query, no explanations.\n"

/-- Python's `str(error)` for the `error` argument of
`correction_plan_agent_prompt`: `str(None) = "None"`, `str(e) = e` for a
string `e`. -/
def errStr : Option String → String
  | none => "None"
  | some e => e

/-- Embedding of `prompts.correction_plan_agent_prompt` (the source applies `str(error)`
to the error argument before substitution). -/
def correction_plan_agent_prompt (question sql schema : String) (error : Option String) : String :=
  "You are a SQL Correction Plan Agent. The generated SQL has an error.\n\nQuestion: "
  ++ question ++
  "\n\nSchema:\n"
  ++ schema ++
  "\n\nCurrent SQL:\n"
  ++ sql ++
  "\n\nError:\n"
  ++ errStr error ++
  "\n\nAnalyze the error and create a correction plan. What needs to be fixed?\n\nReturn a concise correction plan.\n"

/-- Embedding of `prompts.correction_sql_agent_prompt`. -/
def correction_sql_agent_prompt (question schema correction_plan old_sql : String) : String :=
  "You are a SQL Correction Agent. Fix the SQL based on the correction plan.\n\nQuestion: "
  ++ question ++
  "\n\nSchema:\n"
  ++ schema ++
  "\n\nOld SQL (with error):\n"
  ++ old_sql ++
  "\n\nCorrection Plan:\n"
  ++ correction_plan ++
  "\n\nGenerate the corrected SQL query. Return ONLY the SQL, no explanations.\n"

/-!
## Clause policy table (`utils.clause_specific_prompts`)
-/

/-- Python `str.upper()` on ASCII text. -/
def upperStr (s : String) : String := ⟨s.data.map upperChar⟩

/-- Planning guidance appended for one (already upper-cased) clause tag:
the sequence of `if clause in [...]: plan += ...` blocks in
`utils.clause_specific_prompts`, in source order.  The membership tests are
pairwise disjoint, so at most one block is appended per tag. -/
def planContrib (c : String) : String :=
  (if c = "HAVING" ∨ c = "GROUPBY" ∨ c = "GROUP BY" then
    "\n    GROUP BY detected:\n    - All non-aggregated SELECT columns must be in GROUP BY.\n    - GROUP BY should appear after WHERE but before HAVING/ORDER BY.\n\n    If HAVING is present:\n    - Use HAVING to filter on aggregates, not WHERE.\n    " else "") ++
  (if c = "ORDERBY" ∨ c = "ORDER BY" then
    "\n    ORDER BY detected:\n    - Specify column(s) to sort on with direction (ASC/DESC).\n    - ORDER BY should be planned after WHERE/ GROUP BY / HAVING steps.\n    - If LIMIT or OFFSET is present, ORDER BY must come before them.\n    " else "") ++
  (if c = "LIMIT" then
    "\n    LIMIT detected:\n    - Decide which rows are returned: use ORDER BY to define which subset is used.\n    - Plan ORDER BY step before LIMIT to ensure consistent results.\n    " else "") ++
  (if c = "JOIN" then
    "\n    JOIN detected:\n    - Plan all necessary JOINs between tables, listing each table and ON condition.\n    - Each JOIN must reference valid foreign key paths from schema.\n    - Avoid Cartesian products: every JOIN must include a precise ON clause.\n    " else "") ++
  (if c = "UNION" then
    "\n    UNION detected:\n    - Both subqueries must select the same number of columns with compatible types.\n    - Specify UNION vs UNION ALL depending on whether duplicates should be removed.\n    - Plan ORDER BY / LIMIT after the entire UNION block.\n    " else "") ++
  (if c = "INTERSECT" then
    "\n    INTERSECT detected:\n    - Both queries must select the same number and type of columns.\n    - Plan for duplicates: INTERSECT removes duplicates unless INTERSECT ALL is specified.\n    - ORDER BY / LIMIT clauses apply after the intersect.\n    " else "") ++
  (if c = "EXCEPT" then
    "\n    EXCEPT detected:\n    - Both queries must select the same number and type of columns.\n    - Plan which side to apply EXCEPT (left - right rows).\n    - ORDER BY / LIMIT should be planned after the EXCEPT block.\n    " else "")

/-- Generation guidance appended for one (already upper-cased) clause tag:
the sequence of `if clause in [...]: sql += ...` blocks in
`utils.clause_specific_prompts`, in source order. -/
def sqlContrib (c : String) : String :=
  (if c = "HAVING" ∨ c = "GROUPBY" ∨ c = "GROUP BY" then
    "\n    Ensure:\n    - All non-aggregated SELECT columns are in GROUP BY.\n    - HAVING filters only aggregated expressions.\n    - HAVING appears after GROUP BY.\n    - Use WHERE for pre-aggregation filters only.\n    " else "") ++
  (if c = "ORDERBY" ∨ c = "ORDER BY" then
    "\n    Ensure:\n    - ORDER BY references valid columns (or aliases defined in SELECT/grouping).\n    - ORDER BY is placed after GROUP BY or HAVING if those exist.\n    - If LIMIT is used, ORDER BY must guarantee deterministic results.\n    " else "") ++
  (if c = "LIMIT" then
    "\n    Ensure:\n    - Use ORDER BY before LIMIT for deterministic row selection.\n    - LIMIT appears as the final clause after ORDER BY.\n    " else "") ++
  (if c = "JOIN" then
    "\n    Ensure:\n    - Include all tables referenced in the plan via JOINS.\n    - Each JOIN uses correct foreign key column(s) in ON clause.\n    - Do not introduce unintended full joins or missing JOIN conditions.\n    " else "") ++
  (if c = "UNION" then
    "\n    Ensure:\n    - Each UNION branch has identical column count and data types.\n    - Use DISTINCT (default UNION) or ALL explicitly.\n    - If ORDER BY or LIMIT is applied, apply it only at the end of the UNION output.\n    " else "") ++
  (if c = "INTERSECT" then
    "\n    Ensure:\n    - Each INTERSECT branch selects same number and types of columns.\n    - Use INTERSECT or INTERSECT ALL as needed.\n    - Place ORDER BY and LIMIT after the intersect expression.\n    " else "") ++
  (if c = "EXCEPT" then
    "\n    Ensure:\n    - EXCEPT branches share identical column count/types.\n    - Use EXCEPT or EXCEPT ALL appropriately.\n    - Apply ORDER BY and LIMIT only to the final output of the EXCEPT.\n    " else "")

/-- Embedding of `utils.clause_specific_prompts`: iterate over the given clause tags in
input order, upper-case each tag, and append its planning / generation
guidance to the two accumulators. -/
def clause_specific_prompts (clauses : List String) : String × String :=
  clauses.foldl
    (fun acc clause =>
      let c := upperStr clause
      (acc.1 ++ planContrib c, acc.2 ++ sqlContrib c))
    ("", "")

/-!
## Clause detector (`analyze_by_subproblems.py`) and `utils.clean_json`
-/

/-- The opening brace character (code 123). -/
def lbraceChar : Char := Char.ofNat 123

/-- The closing brace character (code 125). -/
def rbraceChar : Char := Char.ofNat 125

/-!
JSON values as produced by `json.loads` (numbers restricted to integers,
which suffices for every property considered here).  Arrays and objects are
represented through the mutually inductive `JList` / `JObj` to keep equality
decidable by derivation.
-/

mutual

/-- A decoded JSON value. -/
inductive JVal
  | null
  | bool (b : Bool)
  | num (n : Int)
  | str (s : String)
  | arr (a : JList)
  | obj (o : JObj)

/-- A decoded JSON array. -/
inductive JList
  | nil
  | cons (v : JVal) (rest : JList)

/-- A decoded JSON object. -/
inductive JObj
  | nil
  | cons (k : String) (v : JVal) (rest : JObj)

end

deriving instance DecidableEq for JVal, JList, JObj

deriving instance DecidableEq for Except

/-- The elements of a JSON array as a `List`. -/
def JList.toList : JList → List JVal
  | JList.nil => []
  | JList.cons v rest => v :: JList.toList rest

/-- The entries of a JSON object as an association list (in source order;
`json.loads` keeps the last occurrence of duplicate keys, so entries of a
decoded object have distinct keys). -/
def JObj.entries : JObj → List (String × JVal)
  | JObj.nil => []
  | JObj.cons k v rest => (k, v) :: JObj.entries rest

/-- The keyword table `clause_patterns` of
`analyze_by_subproblems.extract_clauses_from_text`, in source (insertion)
order. -/
def clause_patterns : List (String × List String) :=
  [("SELECT", [("SELECT"), ("SELECTING"), ("COLUMNS"), ("FIELDS")]),
   ("FROM", [("FROM"), ("TABLE"), ("TABLES")]),
   ("WHERE", [("WHERE"), ("FILTER"), ("CONDITION"), ("FILTERING")]),
   ("JOIN", [("JOIN"), ("JOINING"), ("INNER JOIN"), ("LEFT JOIN"), ("RIGHT JOIN"), ("OUTER JOIN")]),
   ("GROUP BY", [("GROUP BY"), ("GROUPING"), ("AGGREGATE"), ("AGGREGATION")]),
   ("HAVING", [("HAVING")]),
   ("ORDER BY", [("ORDER BY"), ("SORT"), ("SORTING"), ("ORDERING")]),
   ("LIMIT", [("LIMIT"), ("TOP"), ("FIRST")]),
   ("UNION", [("UNION")]),
   ("INTERSECT", [("INTERSECT")]),
   ("EXCEPT", [("EXCEPT"), ("MINUS")]),
   ("DISTINCT", [("DISTINCT"), ("UNIQUE")]),
   ("SUBQUERY", [("SUBQUERY"), ("NESTED"), ("INNER QUERY")])]

/-- Python's substring containment `pat in text` on character lists. -/
def listContainsSub (pat : List Char) : List Char → Bool
  | [] => pat.isEmpty
  | c :: rest => pat.isPrefixOf (c :: rest) || listContainsSub pat rest

/-- Embedding of `analyze_by_subproblems.extract_clauses_from_text`: upper-case the text,
then for each clause (in table order) append its tag once if any of its
synonym patterns occurs as a substring. -/
def extract_clauses_from_text (text : String) : List String :=
  let up := text.data.map upperChar
  clause_patterns.filterMap
    (fun cp => if cp.2.any (fun pat => listContainsSub pat.data up) then some cp.1 else none)

/-- Is the value hashable in Python (usable as a `set` element)?
Lists and dicts are unhashable. -/
def jvalHashable : JVal → Bool
  | JVal.arr _ => false
  | JVal.obj _ => false
  | _ => true

/-- Python truthiness of a JSON value. -/
def pyTruthy : JVal → Bool
  | JVal.null => false
  | JVal.bool b => b
  | JVal.num n => decide (n ≠ 0)
  | JVal.str s => decide (s ≠ "")
  | JVal.arr JList.nil => false
  | JVal.arr _ => true
  | JVal.obj JObj.nil => false
  | JVal.obj _ => true

/-- The Python type name of a JSON value, as appearing in `TypeError`
messages. -/
def jvalTypeName : JVal → String
  | JVal.null => "NoneType"
  | JVal.bool _ => "bool"
  | JVal.num _ => "int"
  | JVal.str _ => "str"
  | JVal.arr _ => "list"
  | JVal.obj _ => "dict"

/-- Embedding of `list(set(clauses)) if clauses else []` for a Python list `clauses`:
empty lists short-circuit to `[]`; otherwise building the set raises
`TypeError` on the first unhashable element, and the resulting list contains
each distinct element once.  (The `set` iteration order is unspecified in
Python; first-occurrence order is used as its deterministic stand-in — no
verified property depends on the order.) -/
def pyFinalSet (clauses : List JVal) : Except String (List JVal) :=
  match clauses with
  | [] => Except.ok []
  | _ =>
    match clauses.find? (fun v => !jvalHashable v) with
    | some v => Except.error ("unhashable type: '" ++ jvalTypeName v ++ "'")
    | none => Except.ok clauses.eraseDups

/-- Embedding of `list(set(v)) if v else []` where `v` is the raw value of the
`"clauses"` field (any JSON value, not necessarily a list): falsy values
give `[]`; iterating a string yields its characters, iterating a dict
yields its keys; numbers and booleans are not iterable (`TypeError`). -/
def pySetOfValue (v : JVal) : Except String (List JVal) :=
  if pyTruthy v = false then Except.ok []
  else
    match v with
    | JVal.arr l => pyFinalSet l.toList
    | JVal.str s => Except.ok ((s.data.map (fun c => JVal.str (String.mk [c]))).eraseDups)
    | JVal.obj o => Except.ok ((o.entries.map (fun kv => JVal.str kv.1)).eraseDups)
    | JVal.num _ => Except.error ("'int' object is not iterable")
    | JVal.bool _ => Except.error ("'bool' object is not iterable")
    | JVal.null => Except.ok []

/-- The inner loop of Methods 2 and 3 of
`analyze_by_subproblems.parse_subproblems`: a dict item contributes its
`"clause"` value, a string item contributes the keywords extracted from it,
any other item is skipped. -/
def clausesFromItems (items : List JVal) : List JVal :=
  items.foldl
    (fun acc it =>
      match it with
      | JVal.obj o =>
        (match o.entries.lookup ("clause") with
         | some v => acc ++ [v]
         | none => acc)
      | JVal.str s => acc ++ (extract_clauses_from_text s).map JVal.str
      | _ => acc)
    []

/-- Escaping of Python's `json.dumps` for the characters relevant here. -/
def jsonEscape (s : String) : String :=
  ⟨s.data.foldr
    (fun c acc =>
      if c = '"' then '\\' :: '"' :: acc
      else if c = '\\' then '\\' :: '\\' :: acc
      else if c = '\n' then '\\' :: 'n' :: acc
      else if c = '\t' then '\\' :: 't' :: acc
      else if c = '\r' then '\\' :: 'r' :: acc
      else c :: acc)
    []⟩

mutual

/-- Model of Python's `json.dumps` with default separators, used by Method 4
of `parse_subproblems` to serialize the decoded structure back to text. -/
def pyJsonDumps : JVal → String
  | JVal.null => "null"
  | JVal.bool true => "true"
  | JVal.bool false => "false"
  | JVal.num n => toString n
  | JVal.str s => "\"" ++ jsonEscape s ++ "\""
  | JVal.arr l => "[" ++ pyJsonDumpsList l ++ "]"
  | JVal.obj o => String.mk [lbraceChar] ++ pyJsonDumpsObj o ++ String.mk [rbraceChar]

/-- Comma-separated serialization of a JSON array's elements. -/
def pyJsonDumpsList : JList → String
  | JList.nil => ""
  | JList.cons v JList.nil => pyJsonDumps v
  | JList.cons v rest => pyJsonDumps v ++ ", " ++ pyJsonDumpsList rest

/-- Comma-separated serialization of a JSON object's entries. -/
def pyJsonDumpsObj : JObj → String
  | JObj.nil => ""
  | JObj.cons k v JObj.nil => "\"" ++ jsonEscape k ++ "\": " ++ pyJsonDumps v
  | JObj.cons k v rest => "\"" ++ jsonEscape k ++ "\": " ++ pyJsonDumps v ++ ", " ++ pyJsonDumpsObj rest

end

/-- Embedding of `analyze_by_subproblems.parse_subproblems`.  The JSON decoder
(`json.loads`) is passed as an oracle `decode`; `decode s = none` models a
`json.JSONDecodeError`.  The result is the list produced by the final
`list(set(clauses)) if clauses else []`, or the message of the uncaught
`TypeError` that line raises when `clauses` holds unhashable or non-iterable
material. -/
def parse_subproblems (decode : String → Option JVal) (sub_json : String) :
    Except String (List JVal) :=
  match decode sub_json with
  | none => pyFinalSet ((extract_clauses_from_text sub_json).map JVal.str)
  | some data =>
    match data with
    | JVal.obj o =>
      (match o.entries.lookup ("clauses") with
       | some v => pySetOfValue v
       | none =>
         match o.entries.lookup ("subproblems") with
         | some sp =>
           (match sp with
            | JVal.arr items => pyFinalSet (clausesFromItems items.toList)
            | _ => pyFinalSet [])
         | none =>
           pyFinalSet ((extract_clauses_from_text (pyJsonDumps data)).map JVal.str))
    | JVal.arr items => pyFinalSet (clausesFromItems items.toList)
    | other => pyFinalSet ((extract_clauses_from_text (pyJsonDumps other)).map JVal.str)

/-- The index of the first occurrence of a character (Python `str.find`,
restricted to single-character needles; `none` for Python's `-1`). -/
def firstIdxOf (ch : Char) : List Char → Option Nat
  | [] => none
  | c :: rest => if c = ch then some 0 else (firstIdxOf ch rest).map (fun i => i + 1)

/-- Characters stripped by `json_str.strip("`\n\r ")` in `utils.clean_json`. -/
def isCleanStripChar (c : Char) : Bool :=
  (c == backtick) || (c == '\n') || (c == '\r') || (c == ' ')

/-- Embedding of `utils.clean_json`: extract the slice from the first opening brace to the
last closing brace; raises (`Except.error`) when either brace is absent. -/
def clean_json (text : String) : Except String String :=
  match firstIdxOf lbraceChar text.data with
  | none => Except.error ("No JSON object found")
  | some start =>
    match firstIdxOf rbraceChar text.data.reverse with
    | none => Except.error ("No closing '" ++ String.mk [rbraceChar] ++ "' found")
    | some rIdx =>
      Except.ok
        ⟨(((((text.data.drop start).take
              (text.data.length - 1 - rIdx + 1 - start)).dropWhile
                isCleanStripChar).reverse.dropWhile isCleanStripChar).reverse)⟩

/-!
## Pipeline orchestrator (`run_eval.evaluate`, per-sample logic)
-/

/-- Embedding of `run_eval.MAX_CRITIC_ATTEMPTS`. -/
def MAX_CRITIC_ATTEMPTS : Nat := 3

/-- The external collaborators of one evaluation run:
`agent` models `utils.call_agent` (response text stripped by the callee;
`""` is the failure signal returned when the API raises), `decode` models
`json.loads` (`none` = `JSONDecodeError`), and `ex` models
`utils.exec_query` (keyed by database file path; errors are returned, never
raised). -/
structure Oracles where
  agent : String → String
  decode : String → Option JVal
  ex : ExecFn

/-- One record of the run's `results` list (`entry` in `run_eval.evaluate`).
`error` is `some msg` exactly when the sample was finalized by the
per-sample exception handler. -/
structure Entry where
  sample_id : Nat
  question : String
  db_id : String
  gold_sql : String
  gen_sql : String
  exact_match : Bool
  valid_sql : Bool
  exec_match : Bool
  error : Option String
deriving DecidableEq, Repr

/-- State of the correction loop at exit: the candidate SQL slot, the last
`exec_match` / error from `utils.query_execution`, and the number of
iterations executed. -/
structure LoopResult where
  sql : String
  execMatch : Bool
  error : Option String
  attempts : Nat
deriving DecidableEq, Repr

/-- The correction loop of `run_eval.evaluate` (lines 143-174):
`while exec_failed and attempts < MAX_CRITIC_ATTEMPTS`.  `fuel` is
`MAX_CRITIC_ATTEMPTS - attempts`, so the loop guard `attempts < MAX` is
`fuel > 0`.  Each iteration requests a correction plan (its failure is NOT
checked), then corrected SQL (failure breaks the loop, keeping the current
candidate), post-processes the corrected SQL and re-executes it. -/
def loopGo (o : Oracles) (item : Item) (schema : String) :
    Nat → String → Bool → Option String → Nat → LoopResult
  | 0, sql, em, err, att => ⟨sql, em, err, att⟩
  | fuel + 1, sql, em, err, att =>
    if em then ⟨sql, em, err, att⟩
    else
      let correction_plan := o.agent (correction_plan_agent_prompt item.question sql schema err)
      let corrected_sql :=
        o.agent (correction_sql_agent_prompt item.question schema correction_plan sql)
      if corrected_sql = "" then ⟨sql, em, err, att⟩
      else
        let sql2 := postprocess_sql corrected_sql
        let qr := query_execution o.ex item sql2
        loopGo o item schema fuel sql2 qr.1 qr.2 (att + 1)

/-- Embedding of `sql.strip().lower()` as used by the Exact-Match metric
(`run_eval.evaluate`, line 182). -/
def stripLower (s : String) : String :=
  ⟨(stripBoth s.data).map lowerChar⟩

/-- The scoring section of `run_eval.evaluate` (lines 176-210): Exact Match
compares the stripped lower-cased candidate with the post-processed gold
SQL; Valid SQL re-executes the candidate as stored; Execution Accuracy is
the correction loop's final `exec_match`. -/
def scoreEntry (o : Oracles) (idx : Nat) (item : Item) (lr : LoopResult) : Entry :=
  let gold_sql_processed := postprocess_sql item.query
  let exact := decide (stripLower lr.sql = stripLower gold_sql_processed)
  let valid :=
    match o.ex (dbPath item.db_id) lr.sql with
    | Except.ok _ => true
    | Except.error _ => false
  ⟨idx + 1, item.question, item.db_id, item.query, lr.sql, exact, valid, lr.execMatch, none⟩

/-- The entry recorded by the per-sample exception handler
(`run_eval.evaluate`, lines 218-230): empty generated SQL, all three metrics
false, the exception text attached. -/
def failEntry (idx : Nat) (item : Item) (msg : String) : Entry :=
  ⟨idx + 1, item.question, item.db_id, item.query, "", false, false, false, some msg⟩

/-- The `"clauses"` list is passed to `utils.clause_specific_prompts`, which
calls `clause.upper()` on each element; a non-string element raises
`AttributeError` there.  This helper performs that conversion at the
boundary, returning the message of the error raised at the first non-string
element. -/
def clausesToStrs : List JVal → Except String (List String)
  | [] => Except.ok []
  | JVal.str s :: rest => (clausesToStrs rest).map (fun l => s :: l)
  | v :: _ => Except.error ("'" ++ jvalTypeName v ++ "' object has no attribute 'upper'")

/-- The body of the per-sample `try:` block of `run_eval.evaluate`
(lines 82-216): the five agent stages, the correction loop, and scoring.
An `Except.error` is a Python exception escaping to the per-sample handler
(possible sources here: `utils.clean_json` and the final
`list(set(...))` / `clause.upper()` of the clause-detection stage). -/
def processBody (o : Oracles) (idx : Nat) (item : Item) (schema : String) : Except String Entry :=
  let corrected_schema :=
    let r := o.agent (alt_schema_linking_agent_prompt item.question schema)
    if r = "" then schema else r
  let sub_raw := o.agent (subproblem_agent_prompt item.question corrected_schema)
  match (if sub_raw = "" then Except.ok (String.mk [lbraceChar, rbraceChar])
         else clean_json sub_raw) with
  | Except.error m => Except.error m
  | Except.ok sub_json =>
    match parse_subproblems o.decode sub_json with
    | Except.error m => Except.error m
    | Except.ok parsed =>
      let subproblem_specific_clauses := parsed.eraseDups
      match clausesToStrs subproblem_specific_clauses with
      | Except.error m => Except.error m
      | Except.ok cstrs =>
        let _ := clause_specific_prompts cstrs
        let plan :=
          let r := o.agent (query_plan_agent_prompt item.question corrected_schema sub_json)
          if r = "" then "Generate SQL based on the question" else r
        let sqlRaw := o.agent (sql_agent_prompt item.question plan corrected_schema)
        if sqlRaw = "" then
          Except.ok ⟨idx + 1, item.question, item.db_id, item.query, "", false, false, false, none⟩
        else
          let sql := postprocess_sql sqlRaw
          let qr := query_execution o.ex item sql
          let lr := loopGo o item corrected_schema MAX_CRITIC_ATTEMPTS sql qr.1 qr.2 0
          Except.ok (scoreEntry o idx item lr)

/-- One iteration of the sample loop of `run_eval.evaluate` (lines 57-230):
load the schema — an empty schema skips the sample entirely (`continue`,
lines 70-73, producing NO entry); otherwise run the `try:` body, converting
an escaped exception into the handler's failure entry.  A `some` result is
the entry appended to `results`. -/
def processSample (o : Oracles) (loadSchema : String → String) (idx : Nat) (item : Item) :
    Option Entry :=
  let schema := loadSchema item.db_id
  if schema = "" then none
  else
    some (match processBody o idx item schema with
          | Except.ok e => e
          | Except.error m => failEntry idx item m)

/-!
## Concrete instances used by counterexamples and witnesses
-/

/-- A concrete sample. -/
def itemA : Item := ⟨"q", "select g", "d"⟩

/-- An executor on which every query fails. -/
def exFailAll : ExecFn := fun _ _ => Except.error ("boom")

/-- An executor on which every query succeeds with an empty result set. -/
def exOkEmpty : ExecFn := fun _ _ => Except.ok []

/-- An adapter that fails (returns `""`) exactly on correction-plan prompts
and answers `select 2` to everything else. -/
def agentPlanFails : String → String := fun p =>
  if ("You are a SQL Correction Plan").data.isPrefixOf p.data then "" else "select 2"

/-- Oracles: correction-plan calls fail, all queries fail. -/
def oPlanFails : Oracles := ⟨agentPlanFails, fun _ => none, exFailAll⟩

/-- Oracles whose generation adapter always returns the fixed non-JSON text
`x` and whose executor always fails. -/
def oTriv : Oracles := ⟨fun _ => "x", fun _ => none, exFailAll⟩

/-- An adapter failing exactly on generation-stage prompts, returning an
empty JSON object text to the subproblem stage, and `x` otherwise. -/
def agentGenFails : String → String := fun p =>
  if ("You are a SQL Generation Agent").data.isPrefixOf p.data then ""
  else if ("You are a Subproblem Agent").data.isPrefixOf p.data then
    String.mk [lbraceChar, rbraceChar]
  else "x"

/-- Oracles: the generation stage fails, every query succeeds (empty rows). -/
def oGenFails : Oracles := ⟨agentGenFails, fun _ => none, exOkEmpty⟩

/-- An adapter that always fails. -/
def oAllFail : Oracles := ⟨fun _ => "", fun _ => none, exFailAll⟩

/-- The text `{"clauses": 5}`. -/
def clausesFiveText : String :=
  String.mk [lbraceChar] ++ "\"clauses\": 5" ++ String.mk [rbraceChar]

/-- The JSON decoder (`json.loads`) behaviour on `{"clauses": 5}`: a JSON
object whose `clauses` field holds the integer `5`. -/
def decodeClausesFive : String → Option JVal := fun s =>
  if s = clausesFiveText then
    some (JVal.obj (JObj.cons ("clauses") (JVal.num 5) JObj.nil))
  else none

/-- An executor for which the gold query of `itemA` fails while everything
else succeeds with an empty result set. -/
def exGoldFails : ExecFn := fun _ s =>
  if s = ("select g") then Except.error ("no such table: g") else Except.ok []

/-!
## Shape predicates for normalizer outputs (used for C2)
-/

/-- Every character is a fixed point of lower-casing. -/
def LowerStable (l : List Char) : Prop := ∀ c ∈ l, lowerChar c = c

/-- The list contains no backtick. -/
def NoBacktick (l : List Char) : Prop := backtick ∉ l

/-- Every whitespace character in the list is a plain space. -/
def AllSpaceWs (l : List Char) : Prop := ∀ c ∈ l, isPyWs c = true → c = ' '

/-- No two adjacent whitespace characters. -/
def NoTwoWs (l : List Char) : Prop :=
  List.Chain' (fun a b => ¬(isPyWs a = true ∧ isPyWs b = true)) l

/-- No whitespace character directly followed by a comma. -/
def NoWsComma (l : List Char) : Prop :=
  List.Chain' (fun a b => ¬(isPyWs a = true ∧ b = ',')) l

/-- No comma directly followed by a whitespace character (the reversed
orientation of `NoWsComma`). -/
def NoCommaWs (l : List Char) : Prop :=
  List.Chain' (fun a b => ¬(a = ',' ∧ isPyWs b = true)) l

/-- Neither end of the list is whitespace. -/
def Stripped (l : List Char) : Prop :=
  (∀ c, l.head? = some c → isPyWs c = false) ∧ (∀ c, l.getLast? = some c → isPyWs c = false)

/-!
## Shared lemmas
-/

theorem loopGo_attempts_le (o : Oracles) (item : Item) (schema : String) :
    ∀ (fuel : Nat) (sql : String) (em : Bool) (err : Option String) (att : Nat),
    (loopGo o item schema fuel sql em err att).attempts ≤ att + fuel := by
  intro fuel
  induction fuel with
  | zero =>
    intro sql em err att
    simp [loopGo]
  | succ n ih =>
    intro sql em err att
    simp only [loopGo]
    split
    · show att ≤ att + (n + 1)
      omega
    · split
      · show att ≤ att + (n + 1)
        omega
      · exact le_trans (ih _ _ _ _) (by omega)

/-- C4: for every adapter behaviour, executor behaviour, sample and starting
state, the correction loop of `run_eval.evaluate` executes at most
`MAX_CRITIC_ATTEMPTS = 3` iterations and terminates (the model is a total
function); this holds in particular when the adapter keeps returning
non-empty correction SQL, including SQL already tried. -/
theorem correction_loop_bounded (o : Oracles) (item : Item) (schema : String)
    (sql : String) (em : Bool) (err : Option String) :
    (loopGo o item schema MAX_CRITIC_ATTEMPTS sql em err 0).attempts ≤ 3 ∧
    MAX_CRITIC_ATTEMPTS = 3 :=
  ⟨by simpa using loopGo_attempts_le o item schema MAX_CRITIC_ATTEMPTS sql em err 0, rfl⟩

/-- C5 (counterexample): an adapter whose correction-plan call fails
(returns the failure signal `""`) while the correction-SQL call succeeds —
the loop does NOT exit early: it runs all 3 iterations and replaces the
candidate (`select 1` becomes `select 2`), contradicting the claim that a
correction-plan failure exits the loop retaining the last candidate. -/
theorem correction_plan_failure_does_not_exit :
    oPlanFails.agent (correction_plan_agent_prompt itemA.question ("select 1") ("s") none) = "" ∧
    loopGo oPlanFails itemA ("s") MAX_CRITIC_ATTEMPTS ("select 1") false none 0 =
      ⟨"select 2", false, some ("boom"), 3⟩ ∧
    ("select 2" : String) ≠ "select 1" := by
  decide

/-- C5 (amended): only a failing correction-SQL call exits the correction
loop early; it does so immediately, retaining the current candidate SQL,
error and attempt count unchanged.  (A failing correction-plan call does not
exit: the empty plan is passed on to the correction-SQL prompt.) -/
theorem correction_sql_failure_exits_early (o : Oracles) (item : Item) (schema : String)
    (fuel : Nat) (sql : String) (err : Option String) (att : Nat)
    (h : o.agent (correction_sql_agent_prompt item.question schema
      (o.agent (correction_plan_agent_prompt item.question sql schema err)) sql) = "") :
    loopGo o item schema (fuel + 1) sql false err att = ⟨sql, false, err, att⟩ := by
  simp [loopGo, h]

theorem correction_sql_failure_exits_early_witness :
    loopGo oAllFail itemA ("s") 3 ("select 1") false none 0 = ⟨"select 1", false, none, 0⟩ :=
  correction_sql_failure_exits_early oAllFail itemA ("s") 2 ("select 1") none 0 rfl

/-- C6 (counterexample): `clause_specific_prompts` is not invariant under
permutation of its input: the lists `[JOIN, LIMIT]` and `[LIMIT, JOIN]` are
permutations of each other but produce different guidance texts, because
concatenation follows the input's iteration order, not a canonical clause
order. -/
theorem clause_prompts_order_sensitive :
    (([("JOIN"), ("LIMIT")] : List String).Perm [("LIMIT"), ("JOIN")]) ∧
    clause_specific_prompts [("JOIN"), ("LIMIT")] ≠
      clause_specific_prompts [("LIMIT"), ("JOIN")] := by
  decide

theorem clause_prompts_foldl_aux (l : List String) :
    ∀ (p s : String),
    List.foldl
      (fun acc clause =>
        (acc.1 ++ planContrib (upperStr clause), acc.2 ++ sqlContrib (upperStr clause)))
      (p, s) l =
    (p ++ (l.map (fun c => planContrib (upperStr c))).foldr (fun a b => a ++ b) "",
     s ++ (l.map (fun c => sqlContrib (upperStr c))).foldr (fun a b => a ++ b) "") := by
  induction l with
  | nil =>
    intro p s
    simp
  | cons c t ih =>
    intro p s
    simp only [List.foldl_cons, List.map_cons, List.foldr_cons]
    rw [ih]
    simp [String.append_assoc]

/-- C6 (amended): `clause_specific_prompts` is deterministic in its input
list, and its output is exactly the concatenation of the per-clause guidance
blocks in the input list's iteration order (so permuting the input permutes
the concatenated segments; the output is not invariant under permutation). -/
theorem clause_prompts_concat_in_input_order (clauses : List String) :
    clause_specific_prompts clauses =
      ((clauses.map (fun c => planContrib (upperStr c))).foldr (fun a b => a ++ b) "",
       (clauses.map (fun c => sqlContrib (upperStr c))).foldr (fun a b => a ++ b) "") := by
  have h := clause_prompts_foldl_aux clauses ("") ("")
  simpa [clause_specific_prompts] using h

/-- C10: when the reference (gold) SQL fails to execute but the candidate
executes successfully, `utils.query_execution` returns
`(exec_match = false, error = none)`; consequently the correction loop is
entered, and the error slot fed to the correction-plan prompt is `none`,
rendered as the placeholder text `None` rather than an error message. -/
theorem gold_failure_comparator_result (ex : ExecFn) (item : Item) (sql : String)
    (rows : List (List Value)) (e : String)
    (hg : ex (dbPath item.db_id) (postprocess_sql item.query) = Except.error e)
    (hn : ex (dbPath item.db_id) (postprocess_sql sql) = Except.ok rows) :
    query_execution ex item sql = (false, none) ∧ errStr none = "None" := by
  refine ⟨?_, rfl⟩
  simp [query_execution, hg, hn]

theorem gold_failure_comparator_result_witness :
    query_execution exGoldFails itemA ("select 1") = (false, none) ∧ errStr none = "None" :=
  gold_failure_comparator_result exGoldFails itemA ("select 1") [] ("no such table: g")
    (by decide) (by decide)

/-- C1 (counterexample): a sample whose schema cannot be loaded
(`load_schema` returns the empty string) is skipped by the `continue` at
lines 70-73 of `run_eval.evaluate` and contributes NO entry to the results
sequence, contradicting the claim that every processed sample (including one
whose schema cannot be loaded) contributes exactly one entry. -/
theorem schema_failure_sample_skipped :
    processSample oTriv (fun _ => "") 0 itemA = none := by
  decide

/-- C1 (amended): every sample whose schema loads as a non-empty string
contributes exactly one entry to the results sequence — in particular a
sample-level exception is recorded as the handler's failure entry (empty
generated SQL, all metrics false, error message attached) — but a sample
whose schema cannot be loaded is skipped and contributes no entry. -/
theorem sample_entry_accounting (o : Oracles) (ls : String → String) (idx : Nat) (item : Item) :
    (ls item.db_id = "" → processSample o ls idx item = none) ∧
    (ls item.db_id ≠ "" → (processSample o ls idx item).isSome = true) ∧
    (∀ msg, ls item.db_id ≠ "" → processBody o idx item (ls item.db_id) = Except.error msg →
      processSample o ls idx item = some (failEntry idx item msg)) := by
  refine ⟨fun h => by simp [processSample, h], fun h => by simp [processSample, h],
    fun msg h hb => by simp [processSample, h, hb]⟩

theorem sample_entry_accounting_witness :
    processSample oTriv (fun _ => ("")) 0 itemA = none ∧
    (processSample oTriv (fun _ => ("S")) 0 itemA).isSome = true ∧
    processSample oTriv (fun _ => ("S")) 0 itemA =
      some (failEntry 0 itemA ("No JSON object found")) :=
  ⟨(sample_entry_accounting oTriv (fun _ => ("")) 0 itemA).1 rfl,
   (sample_entry_accounting oTriv (fun _ => ("S")) 0 itemA).2.1 (by decide),
   (sample_entry_accounting oTriv (fun _ => ("S")) 0 itemA).2.2 ("No JSON object found")
     (by decide) (by decide)⟩

/-- C8 (counterexample): a decomposition output that is not valid JSON and
contains no opening brace (here the text `x`) makes `utils.clean_json` raise
`ValueError("No JSON object found")` before any fallback can run; the
exception escapes to the per-sample handler and the sample IS finalized as a
failure entry with that error surfaced — contradicting the claim that a
malformed decomposition output is always recovered locally and never
surfaces. -/
theorem malformed_decomposition_finalizes_failure :
    oTriv.agent (subproblem_agent_prompt itemA.question ("x")) = "x" ∧
    clean_json ("x") = Except.error ("No JSON object found") ∧
    processSample oTriv (fun _ => ("S")) 0 itemA =
      some (failEntry 0 itemA ("No JSON object found")) ∧
    (failEntry 0 itemA ("No JSON object found")).error = some ("No JSON object found") := by
  decide

theorem firstIdxOf_eq_none_iff (ch : Char) (l : List Char) :
    firstIdxOf ch l = none ↔ ch ∉ l := by
  induction l with
  | nil => simp [firstIdxOf]
  | cons c rest ih =>
    by_cases h : c = ch
    · subst h
      simp [firstIdxOf]
    · have h2 : ¬(ch = c) := fun hc => h hc.symm
      simp only [firstIdxOf, if_neg h, List.mem_cons]
      constructor
      · intro hmap
        cases hfr : firstIdxOf ch rest with
        | none =>
          intro hor
          rcases hor with h3 | h3
          · exact h2 h3
          · exact (ih.mp hfr) h3
        | some i =>
          rw [hfr] at hmap
          cases hmap
      · intro hnot
        have hnr : ch ∉ rest := fun hm => hnot (Or.inr hm)
        rw [ih.mpr hnr]
        rfl

theorem find_unhashable_strs_eq_none (l : List String) :
    (l.map JVal.str).find? (fun v => !jvalHashable v) = none := by
  induction l with
  | nil => simp
  | cons a t ih => simp [jvalHashable, ih]

theorem pyFinalSet_strs (l : List String) :
    pyFinalSet (l.map JVal.str) = Except.ok ((l.map JVal.str).eraseDups) := by
  cases l with
  | nil => rfl
  | cons a t =>
    simp only [pyFinalSet, List.map_cons]
    rw [show ((JVal.str a :: t.map JVal.str).find? (fun v => !jvalHashable v)) = none from
      find_unhashable_strs_eq_none (a :: t)]

/-- C8 (amended): a malformed decomposition output is recovered locally only
when it contains an opening and a closing brace: then `utils.clean_json`
succeeds, and if the extracted text still fails JSON decoding,
`parse_subproblems` falls back to text-keyword extraction without raising.
An output containing no opening brace makes `clean_json` raise
`ValueError("No JSON object found")`, which finalizes the sample as a
recorded failure entry (the run continues with the next sample). -/
theorem malformed_decomposition_recovery_scope (t : String) :
    (lbraceChar ∈ t.data → rbraceChar ∈ t.data → ∃ s, clean_json t = Except.ok s) ∧
    (lbraceChar ∉ t.data → clean_json t = Except.error ("No JSON object found")) ∧
    (∀ dec : String → Option JVal, dec t = none →
      parse_subproblems dec t =
        Except.ok (((extract_clauses_from_text t).map JVal.str).eraseDups)) := by
  refine ⟨fun h1 h2 => ?_, fun h1 => ?_, fun dec hdec => ?_⟩
  · unfold clean_json
    cases hf : firstIdxOf lbraceChar t.data with
    | none => exact absurd h1 ((firstIdxOf_eq_none_iff _ _).mp hf)
    | some start =>
      cases hr : firstIdxOf rbraceChar t.data.reverse with
      | none =>
        exact absurd (List.mem_reverse.mpr h2) ((firstIdxOf_eq_none_iff _ _).mp hr)
      | some rIdx => exact ⟨_, rfl⟩
  · unfold clean_json
    rw [(firstIdxOf_eq_none_iff lbraceChar t.data).mpr h1]
  · simp [parse_subproblems, hdec, pyFinalSet_strs]

theorem malformed_decomposition_recovery_scope_witness :
    (∃ s, clean_json ("a" ++ String.mk [lbraceChar] ++ "b" ++ String.mk [rbraceChar]) =
      Except.ok s) ∧
    clean_json ("abc") = Except.error ("No JSON object found") ∧
    parse_subproblems (fun _ => none) ("no keywords here at all") =
      Except.ok (((extract_clauses_from_text ("no keywords here at all")).map JVal.str).eraseDups) :=
  ⟨(malformed_decomposition_recovery_scope
      ("a" ++ String.mk [lbraceChar] ++ "b" ++ String.mk [rbraceChar])).1
      (by decide) (by decide),
   (malformed_decomposition_recovery_scope ("abc")).2.1 (by decide),
   (malformed_decomposition_recovery_scope ("no keywords here at all")).2.2
      (fun _ => none) rfl⟩

/-- C7 (counterexample): `parse_subproblems` is not total: on the input
`{"clauses": 5}` — valid JSON whose `clauses` field holds a non-iterable
value — the final `list(set(clauses))` raises
`TypeError("'int' object is not iterable")`, modelled here as the error
result.  (The decoder oracle maps the input to the object `json.loads`
produces for it.) -/
theorem clauses_nonlist_value_raises :
    parse_subproblems decodeClausesFive clausesFiveText =
      Except.error ("'int' object is not iterable") := by
  decide

/-- C7 (amended): on every input that fails JSON decoding entirely,
`parse_subproblems` returns without raising — the deduplicated
text-keyword-extraction result — and in particular returns the empty set
when no keyword occurs; but for decodable JSON whose `clauses` field holds
a non-iterable or unhashable value the final `list(set(...))` raises
`TypeError`. -/
theorem parse_total_on_decode_failure (dec : String → Option JVal) (raw : String)
    (h : dec raw = none) :
    parse_subproblems dec raw =
      Except.ok (((extract_clauses_from_text raw).map JVal.str).eraseDups) ∧
    (extract_clauses_from_text raw = [] → parse_subproblems dec raw = Except.ok []) := by
  have h1 : parse_subproblems dec raw =
      Except.ok (((extract_clauses_from_text raw).map JVal.str).eraseDups) := by
    simp [parse_subproblems, h, pyFinalSet_strs]
  exact ⟨h1, fun he => by rw [h1, he]; rfl⟩

theorem parse_total_on_decode_failure_witness :
    parse_subproblems (fun _ => none) ("We need to SELECT and use WHERE") =
      Except.ok ([JVal.str ("SELECT"), JVal.str ("WHERE")]) ∧
    parse_subproblems (fun _ => none) ("not json and no keywords") = Except.ok [] :=
  ⟨by
    have h := (parse_total_on_decode_failure (fun _ => none)
      ("We need to SELECT and use WHERE") rfl).1
    rw [h]
    decide,
   (parse_total_on_decode_failure (fun _ => none) ("not json and no keywords") rfl).2
     (by decide)⟩

theorem query_execution_fst_true (ex : ExecFn) (item : Item) (s : String)
    (h : (query_execution ex item s).1 = true) :
    ∃ rows, ex (dbPath item.db_id) (postprocess_sql s) = Except.ok rows := by
  cases hn : ex (dbPath item.db_id) (postprocess_sql s) with
  | ok nr => exact ⟨nr, rfl⟩
  | error e =>
    exfalso
    cases hg : ex (dbPath item.db_id) (postprocess_sql item.query) with
    | ok gr => simp [query_execution, hg, hn] at h
    | error e2 => simp [query_execution, hg, hn] at h

theorem loopGo_succ_recurse (o : Oracles) (item : Item) (schema : String) (n : Nat)
    (sql : String) (err : Option String) (att : Nat)
    (hcs : o.agent (correction_sql_agent_prompt item.question schema
      (o.agent (correction_plan_agent_prompt item.question sql schema err)) sql) ≠ "") :
    loopGo o item schema (n + 1) sql false err att =
      loopGo o item schema n
        (postprocess_sql (o.agent (correction_sql_agent_prompt item.question schema
          (o.agent (correction_plan_agent_prompt item.question sql schema err)) sql)))
        (query_execution o.ex item (postprocess_sql (o.agent (correction_sql_agent_prompt
          item.question schema
          (o.agent (correction_plan_agent_prompt item.question sql schema err)) sql)))).1
        (query_execution o.ex item (postprocess_sql (o.agent (correction_sql_agent_prompt
          item.question schema
          (o.agent (correction_plan_agent_prompt item.question sql schema err)) sql)))).2
        (att + 1) := by
  simp [loopGo, hcs]

theorem loopGo_execMatch_ok (o : Oracles) (item : Item) (schema : String) :
    ∀ (fuel : Nat) (sql : String) (em : Bool) (err : Option String) (att : Nat),
    (em = true → ∃ rows, o.ex (dbPath item.db_id) (postprocess_sql sql) = Except.ok rows) →
    (loopGo o item schema fuel sql em err att).execMatch = true →
    ∃ rows, o.ex (dbPath item.db_id)
      (postprocess_sql (loopGo o item schema fuel sql em err att).sql) = Except.ok rows := by
  intro fuel
  induction fuel with
  | zero =>
    intro sql em err att hinit hem
    simp only [loopGo] at hem ⊢
    exact hinit hem
  | succ n ih =>
    intro sql em err att hinit hem
    cases em with
    | true =>
      simp only [loopGo, if_true] at hem ⊢
      exact hinit rfl
    | false =>
      by_cases hcs : o.agent (correction_sql_agent_prompt item.question schema
          (o.agent (correction_plan_agent_prompt item.question sql schema err)) sql) = ""
      · have hstop : loopGo o item schema (n + 1) sql false err att = ⟨sql, false, err, att⟩ := by
          simp [loopGo, hcs]
        rw [hstop] at hem
        cases hem
      · rw [loopGo_succ_recurse o item schema n sql err att hcs] at hem ⊢
        exact ih _ _ _ _ (fun h => query_execution_fst_true o.ex item _ h) hem

/-- C9 (counterexample): a sample finalized through the generation-stage
failure path has `valid_sql = false` and `gen_sql = ""` although the
executor returns no error for the empty string on that database — the
claimed invariant `valid_sql = true iff the executor returns no error for
gen_sql` fails on such a finalized Sample Result. -/
theorem failure_entry_breaks_valid_sql_iff :
    processSample oGenFails (fun _ => ("S")) 0 itemA =
      some ⟨1, ("q"), ("d"), ("select g"), (""), false, false, false, none⟩ ∧
    oGenFails.ex (dbPath itemA.db_id) ("") = Except.ok [] := by
  decide

/-- C9 (amended): for a Sample Result finalized through the scoring path,
`valid_sql = true` iff the executor returns no error for `gen_sql`;
`exec_match = true` implies the executor returns no error for
`postprocess_sql gen_sql` (the comparator re-normalizes the candidate before
executing it); hence `exec_match → valid_sql` holds whenever `gen_sql` is a
fixed point of the normalizer.  (Failure-path results set all metrics false
without consulting the executor.) -/
theorem scoring_metrics_relation (o : Oracles) (idx : Nat) (item : Item) (schema sql0 : String)
    (lr : LoopResult)
    (hlr : lr = loopGo o item schema MAX_CRITIC_ATTEMPTS sql0
      (query_execution o.ex item sql0).1 (query_execution o.ex item sql0).2 0) :
    ((scoreEntry o idx item lr).valid_sql = true ↔
      ∃ rows, o.ex (dbPath item.db_id) lr.sql = Except.ok rows) ∧
    ((scoreEntry o idx item lr).exec_match = true →
      ∃ rows, o.ex (dbPath item.db_id) (postprocess_sql lr.sql) = Except.ok rows) ∧
    (postprocess_sql lr.sql = lr.sql → (scoreEntry o idx item lr).exec_match = true →
      (scoreEntry o idx item lr).valid_sql = true) := by
  have hvalid : (scoreEntry o idx item lr).valid_sql = true ↔
      ∃ rows, o.ex (dbPath item.db_id) lr.sql = Except.ok rows := by
    cases hx : o.ex (dbPath item.db_id) lr.sql with
    | ok r => simp [scoreEntry, hx]
    | error e => simp [scoreEntry, hx]
  have hexec : (scoreEntry o idx item lr).exec_match = true →
      ∃ rows, o.ex (dbPath item.db_id) (postprocess_sql lr.sql) = Except.ok rows := by
    intro hem
    simp only [scoreEntry] at hem
    subst hlr
    exact loopGo_execMatch_ok o item schema _ _ _ _ _
      (fun h => query_execution_fst_true o.ex item sql0 h) hem
  refine ⟨hvalid, hexec, fun hpp hem => hvalid.mpr ?_⟩
  obtain ⟨r, hr⟩ := hexec hem
  rw [hpp] at hr
  exact ⟨r, hr⟩

theorem scoring_metrics_relation_witness :
    ((scoreEntry oAllFail 0 itemA ⟨"select 1", false, some ("boom"), 0⟩).valid_sql = true ↔
      ∃ rows, oAllFail.ex (dbPath itemA.db_id)
        (LoopResult.sql ⟨"select 1", false, some ("boom"), 0⟩) = Except.ok rows) ∧
    ((scoreEntry oAllFail 0 itemA ⟨"select 1", false, some ("boom"), 0⟩).exec_match = true →
      ∃ rows, oAllFail.ex (dbPath itemA.db_id)
        (postprocess_sql (LoopResult.sql ⟨"select 1", false, some ("boom"), 0⟩)) =
          Except.ok rows) ∧
    (postprocess_sql (LoopResult.sql ⟨"select 1", false, some ("boom"), 0⟩) =
        LoopResult.sql ⟨"select 1", false, some ("boom"), 0⟩ →
      (scoreEntry oAllFail 0 itemA ⟨"select 1", false, some ("boom"), 0⟩).exec_match = true →
      (scoreEntry oAllFail 0 itemA ⟨"select 1", false, some ("boom"), 0⟩).valid_sql = true) :=
  scoring_metrics_relation oAllFail 0 itemA ("s") ("select 1")
    ⟨"select 1", false, some ("boom"), 0⟩ (by decide)

theorem insertionSortLe_eq_of_perm {α : Type} [LinearOrder α] {a b : List α} (h : a.Perm b) :
    List.insertionSort (fun x y => x ≤ y) a = List.insertionSort (fun x y => x ≤ y) b :=
  List.eq_of_perm_of_sorted
    ((List.perm_insertionSort (fun x y => x ≤ y) a).trans
      (h.trans (List.perm_insertionSort (fun x y => x ≤ y) b).symm))
    (List.sorted_insertionSort (fun x y => x ≤ y) a)
    (List.sorted_insertionSort (fun x y => x ≤ y) b)

theorem normalize_rows_of_perm (a b : List (List Value)) (h : a.Perm b) :
    normalize_rows a = normalize_rows b := by
  unfold normalize_rows
  exact insertionSortLe_eq_of_perm (h.map _)

theorem normalize_rows_of_cell_perm (a b : List (List Value))
    (h : List.Forall₂ (fun r r2 => r.Perm r2) a b) :
    normalize_rows a = normalize_rows b := by
  unfold normalize_rows
  have hmap : a.map (fun r => List.insertionSort (fun x y => x ≤ y) (r.map pyStr)) =
      b.map (fun r => List.insertionSort (fun x y => x ≤ y) (r.map pyStr)) := by
    induction h with
    | nil => rfl
    | cons hr ht ih =>
      simp only [List.map_cons]
      rw [ih]
      congr 1
      exact insertionSortLe_eq_of_perm (hr.map _)
  rw [hmap]

/-- C3: when both statements execute successfully, the comparator declares
them equivalent exactly when their canonical row forms (`normalize_rows`:
each cell coerced to text, cells sorted within each row, rows sorted) are
equal; canonicalization is invariant under permuting the rows and under
permuting the cells inside each row, but distinguishes duplicate-row
multiplicity (`[(1,), (1,)]` vs `[(1,)]`). -/
theorem comparator_canonical_equivalence :
    (∀ (ex : ExecFn) (item : Item) (sql : String) (goldRows genRows : List (List Value)),
      ex (dbPath item.db_id) (postprocess_sql item.query) = Except.ok goldRows →
      ex (dbPath item.db_id) (postprocess_sql sql) = Except.ok genRows →
      query_execution ex item sql =
        (decide (normalize_rows genRows = normalize_rows goldRows), none)) ∧
    (∀ a b : List (List Value), a.Perm b → normalize_rows a = normalize_rows b) ∧
    (∀ a b : List (List Value), List.Forall₂ (fun r r2 => r.Perm r2) a b →
      normalize_rows a = normalize_rows b) ∧
    normalize_rows [[Value.int 1], [Value.int 1]] ≠ normalize_rows [[Value.int 1]] := by
  refine ⟨fun ex item sql gr nr hg hn => ?_, normalize_rows_of_perm,
    normalize_rows_of_cell_perm, by decide⟩
  simp [query_execution, hg, hn]

theorem comparator_canonical_equivalence_witness :
    query_execution exOkEmpty itemA ("select 1") =
      (decide (normalize_rows [] = normalize_rows []), none) ∧
    normalize_rows [[Value.int 1, Value.text ("a")], [Value.int 2, Value.text ("b")]] =
      normalize_rows [[Value.int 2, Value.text ("b")], [Value.int 1, Value.text ("a")]] ∧
    normalize_rows [[Value.int 1, Value.int 2]] = normalize_rows [[Value.int 2, Value.int 1]] :=
  ⟨comparator_canonical_equivalence.1 exOkEmpty itemA ("select 1") [] [] rfl rfl,
   comparator_canonical_equivalence.2.1 _ _ (by decide),
   comparator_canonical_equivalence.2.2.1 _ _ (List.Forall₂.cons (by decide) List.Forall₂.nil)⟩

/-- C2 (counterexample): the normalizer is not idempotent: it strips exactly
one trailing semicolon per application, so `select 1;;` normalizes to
`select 1;`, which normalizes again to `select 1`. -/
theorem normalizer_not_idempotent :
    postprocess_sql (postprocess_sql ("select 1;;")) ≠ postprocess_sql ("select 1;;") := by
  decide

theorem charOfNat_toNat (n : Nat) (h : n.isValidChar) : (Char.ofNat n).toNat = n := by
  unfold Char.ofNat
  rw [dif_pos h]
  rfl

theorem lowerChar_idem (c : Char) : lowerChar (lowerChar c) = lowerChar c := by
  unfold lowerChar
  by_cases h : 65 ≤ c.toNat ∧ c.toNat ≤ 90
  · rw [if_pos h]
    have hv : (c.toNat + 32).isValidChar := Or.inl (by omega)
    have ht : (Char.ofNat (c.toNat + 32)).toNat = c.toNat + 32 := charOfNat_toNat _ hv
    rw [if_neg (by rw [ht]; omega)]
  · rw [if_neg h, if_neg h]

theorem lowerChar_space : lowerChar ' ' = ' ' := by decide

theorem removeFencesAux_sublist : ∀ (n : Nat) (l : List Char),
    List.Sublist (removeFencesAux n l) l := by
  intro n
  induction n with
  | zero =>
    intro l
    simp [removeFencesAux]
  | succ m ih =>
    intro l
    cases l with
    | nil => simp [removeFencesAux]
    | cons a rest =>
      simp only [removeFencesAux]
      split
      · exact (ih _).trans (List.drop_sublist _ _)
      · split
        · exact (ih _).trans (List.drop_sublist _ _)
        · exact List.Sublist.cons₂ a (ih rest)

theorem removeFences_sublist (l : List Char) : List.Sublist (removeFences l) l :=
  removeFencesAux_sublist l.length l

theorem stripBoth_sublist (l : List Char) : List.Sublist (stripBoth l) l := by
  unfold stripBoth
  have h1 : List.Sublist (l.dropWhile isPyWs) l := List.dropWhile_sublist isPyWs
  have h2 : List.Sublist ((l.dropWhile isPyWs).reverse.dropWhile isPyWs)
      (l.dropWhile isPyWs).reverse := List.dropWhile_sublist isPyWs
  have h3 := h2.reverse
  rw [List.reverse_reverse] at h3
  exact h3.trans h1

theorem stripSqlLabel_sublist (l : List Char) : List.Sublist (stripSqlLabel l) l := by
  unfold stripSqlLabel
  by_cases h : (l.take 3 == ("sql").data) = true
  · rw [if_pos h]
    exact ((List.dropWhile_sublist _).trans (List.drop_sublist _ _))
  · rw [if_neg h]

theorem rmWsCommaRevAux_sublist : ∀ (b : Bool) (l : List Char),
    List.Sublist (rmWsCommaRevAux b l) l := by
  intro b l
  induction l generalizing b with
  | nil => simp [rmWsCommaRevAux]
  | cons c rest ih =>
    by_cases hd : (b && isPyWs c) = true
    · have he : rmWsCommaRevAux b (c :: rest) = rmWsCommaRevAux true rest := by
        simp [rmWsCommaRevAux, hd]
      rw [he]
      exact (ih true).trans (List.sublist_cons_self c rest)
    · by_cases hc : (c == ',') = true
      · have hcc : c = ',' := eq_of_beq hc
        have he : rmWsCommaRevAux b (c :: rest) = ',' :: rmWsCommaRevAux true rest := by
          simp [rmWsCommaRevAux, hd, hc]
        rw [he, hcc]
        exact List.Sublist.cons₂ ',' (ih true)
      · have he : rmWsCommaRevAux b (c :: rest) = c :: rmWsCommaRevAux false rest := by
          simp [rmWsCommaRevAux, hd, hc]
        rw [he]
        exact List.Sublist.cons₂ c (ih false)

theorem rmWsComma_sublist (l : List Char) : List.Sublist (rmWsComma l) l := by
  unfold rmWsComma
  have h := (rmWsCommaRevAux_sublist false l.reverse).reverse
  rw [List.reverse_reverse] at h
  exact h

theorem ppStage9_sublist (l : List Char) : List.Sublist (ppStage9 l) l := by
  unfold ppStage9
  by_cases h : (l.getLast? == some ';') = true
  · rw [if_pos h]
    exact (stripBoth_sublist _).trans (List.dropLast_sublist l)
  · rw [if_neg h]

theorem mem_collapseWsAux : ∀ (b : Bool) (l : List Char) (c : Char),
    c ∈ collapseWsAux b l → c ∈ l ∨ c = ' ' := by
  intro b l
  induction l generalizing b with
  | nil => intro c h; simp [collapseWsAux] at h
  | cons a rest ih =>
    intro c h
    by_cases hw : isPyWs a = true
    · cases b with
      | true =>
        have he : collapseWsAux true (a :: rest) = collapseWsAux true rest := by
          simp [collapseWsAux, hw]
        rw [he] at h
        rcases ih true c h with h2 | h2
        · exact Or.inl (List.mem_cons_of_mem a h2)
        · exact Or.inr h2
      | false =>
        have he : collapseWsAux false (a :: rest) = ' ' :: collapseWsAux true rest := by
          simp [collapseWsAux, hw]
        rw [he] at h
        rcases List.mem_cons.mp h with h2 | h2
        · exact Or.inr h2
        · rcases ih true c h2 with h3 | h3
          · exact Or.inl (List.mem_cons_of_mem a h3)
          · exact Or.inr h3
    · have he : collapseWsAux b (a :: rest) = a :: collapseWsAux false rest := by
        simp [collapseWsAux, hw]
      rw [he] at h
      rcases List.mem_cons.mp h with h2 | h2
      · exact Or.inl (h2 ▸ List.mem_cons_self a rest)
      · rcases ih false c h2 with h3 | h3
        · exact Or.inl (List.mem_cons_of_mem a h3)
        · exact Or.inr h3

theorem mem_ppStage7 (l : List Char) (c : Char) (h : c ∈ ppStage7 l) : c ∈ l ∨ c = ' ' := by
  unfold ppStage7 at h
  exact mem_collapseWsAux false l c ((stripBoth_sublist _).subset h)

theorem lowerStable_ppStage2 (l : List Char) : LowerStable (ppStage2 l) := by
  intro c hc
  rcases List.mem_map.mp hc with ⟨d, _, rfl⟩
  exact lowerChar_idem d

theorem allSpaceWs_collapseWsAux : ∀ (b : Bool) (l : List Char),
    AllSpaceWs (collapseWsAux b l) := by
  intro b l
  induction l generalizing b with
  | nil => intro c hc; simp [collapseWsAux] at hc
  | cons a rest ih =>
    intro c hc hw
    by_cases ha : isPyWs a = true
    · cases b with
      | true =>
        rw [show collapseWsAux true (a :: rest) = collapseWsAux true rest from by
          simp [collapseWsAux, ha]] at hc
        exact ih true c hc hw
      | false =>
        rw [show collapseWsAux false (a :: rest) = ' ' :: collapseWsAux true rest from by
          simp [collapseWsAux, ha]] at hc
        rcases List.mem_cons.mp hc with h2 | h2
        · exact h2
        · exact ih true c h2 hw
    · rw [show collapseWsAux b (a :: rest) = a :: collapseWsAux false rest from by
        simp [collapseWsAux, ha]] at hc
      rcases List.mem_cons.mp hc with h2 | h2
      · exact absurd (h2 ▸ hw) (by simp [ha])
      · exact ih false c h2 hw

theorem head_collapseWsAux_true : ∀ (l : List Char) (c : Char),
    (collapseWsAux true l).head? = some c → isPyWs c = false := by
  intro l
  induction l with
  | nil => intro c h; simp [collapseWsAux] at h
  | cons a rest ih =>
    intro c h
    by_cases ha : isPyWs a = true
    · rw [show collapseWsAux true (a :: rest) = collapseWsAux true rest from by
        simp [collapseWsAux, ha]] at h
      exact ih c h
    · rw [show collapseWsAux true (a :: rest) = a :: collapseWsAux false rest from by
        simp [collapseWsAux, ha]] at h
      cases h
      simpa using ha

theorem noTwoWs_collapseWsAux : ∀ (b : Bool) (l : List Char), NoTwoWs (collapseWsAux b l) := by
  intro b l
  induction l generalizing b with
  | nil => simp [collapseWsAux, NoTwoWs]
  | cons a rest ih =>
    by_cases ha : isPyWs a = true
    · cases b with
      | true =>
        rw [show collapseWsAux true (a :: rest) = collapseWsAux true rest from by
          simp [collapseWsAux, ha]]
        exact ih true
      | false =>
        rw [show collapseWsAux false (a :: rest) = ' ' :: collapseWsAux true rest from by
          simp [collapseWsAux, ha]]
        refine List.chain'_cons'.mpr ⟨fun y hy => ?_, ih true⟩
        have := head_collapseWsAux_true rest y hy
        simp [this]
    · rw [show collapseWsAux b (a :: rest) = a :: collapseWsAux false rest from by
        simp [collapseWsAux, ha]]
      refine List.chain'_cons'.mpr ⟨fun y hy => ?_, ih false⟩
      simp [ha]

theorem head_dropWhile (p : Char → Bool) : ∀ (l : List Char) (c : Char),
    (l.dropWhile p).head? = some c → p c = false := by
  intro l
  induction l with
  | nil => intro c h; simp [List.dropWhile] at h
  | cons a rest ih =>
    intro c h
    by_cases ha : p a = true
    · rw [List.dropWhile_cons_of_pos ha] at h
      exact ih c h
    · rw [List.dropWhile_cons_of_neg ha] at h
      cases h
      simpa using ha

theorem getLast_dropWhile_of_ne_nil (p : Char → Bool) : ∀ (l : List Char),
    l.dropWhile p ≠ [] → (l.dropWhile p).getLast? = l.getLast? := by
  intro l
  induction l with
  | nil => intro h; simp [List.dropWhile] at h
  | cons a rest ih =>
    intro h
    by_cases ha : p a = true
    · rw [List.dropWhile_cons_of_pos ha] at h ⊢
      rw [ih h]
      have hrest : rest ≠ [] := by
        intro he
        rw [he] at h
        simp [List.dropWhile] at h
      cases rest with
      | nil => exact absurd rfl hrest
      | cons b t => simp
    · rw [List.dropWhile_cons_of_neg ha]

theorem stripBoth_stripped (l : List Char) : Stripped (stripBoth l) := by
  constructor
  · intro c hc
    unfold stripBoth at hc
    rw [List.head?_reverse] at hc
    by_cases hk : ((l.dropWhile isPyWs).reverse.dropWhile isPyWs) = []
    · rw [hk] at hc
      cases hc
    · rw [getLast_dropWhile_of_ne_nil isPyWs _ hk, List.getLast?_reverse] at hc
      exact head_dropWhile isPyWs l c hc
  · intro c hc
    unfold stripBoth at hc
    rw [List.getLast?_reverse] at hc
    exact head_dropWhile isPyWs _ c hc

theorem chain'_dropWhile {r : Char → Char → Prop} (p : Char → Bool) :
    ∀ (l : List Char), List.Chain' r l → List.Chain' r (l.dropWhile p) := by
  intro l h
  induction l with
  | nil => simp
  | cons a rest ih =>
    by_cases ha : p a = true
    · rw [List.dropWhile_cons_of_pos ha]
      exact ih h.tail
    · rw [List.dropWhile_cons_of_neg ha]
      exact h

theorem chain'_stripBoth {r : Char → Char → Prop} (l : List Char) (h : List.Chain' r l) :
    List.Chain' r (stripBoth l) := by
  unfold stripBoth
  have h1 : List.Chain' r (l.dropWhile isPyWs) := chain'_dropWhile isPyWs l h
  have h2 : List.Chain' (flip r) ((l.dropWhile isPyWs).reverse) := by
    rw [List.chain'_reverse]
    exact h1
  have h3 : List.Chain' (flip r) ((l.dropWhile isPyWs).reverse.dropWhile isPyWs) :=
    chain'_dropWhile isPyWs _ h2
  rw [List.chain'_reverse]
  exact h3

theorem chain'_ppStage9 {r : Char → Char → Prop} (l : List Char) (h : List.Chain' r l) :
    List.Chain' r (ppStage9 l) := by
  unfold ppStage9
  by_cases hb : (l.getLast? == some ';') = true
  · rw [if_pos hb]
    apply chain'_stripBoth
    rw [List.dropLast_eq_take]
    exact h.take _
  · rw [if_neg hb]
    exact h

theorem head_rmWsCommaRevAux_true : ∀ (l : List Char) (c : Char),
    (rmWsCommaRevAux true l).head? = some c → isPyWs c = false := by
  intro l
  induction l with
  | nil => intro c h; simp [rmWsCommaRevAux] at h
  | cons a rest ih =>
    intro c h
    by_cases ha : isPyWs a = true
    · rw [show rmWsCommaRevAux true (a :: rest) = rmWsCommaRevAux true rest from by
        simp [rmWsCommaRevAux, ha]] at h
      exact ih c h
    · by_cases hc : (a == ',') = true
      · rw [show rmWsCommaRevAux true (a :: rest) = ',' :: rmWsCommaRevAux true rest from by
          simp [rmWsCommaRevAux, ha, hc]] at h
        cases h
        decide
      · rw [show rmWsCommaRevAux true (a :: rest) = a :: rmWsCommaRevAux false rest from by
          simp [rmWsCommaRevAux, ha, hc]] at h
        cases h
        simpa using ha

theorem head_rmWsCommaRevAux_false : ∀ (l : List Char),
    (rmWsCommaRevAux false l).head? = l.head? := by
  intro l
  cases l with
  | nil => rfl
  | cons a rest =>
    by_cases hc : (a == ',') = true
    · have ha := eq_of_beq hc
      rw [show rmWsCommaRevAux false (a :: rest) = ',' :: rmWsCommaRevAux true rest from by
        simp [rmWsCommaRevAux, hc]]
      simp [ha]
    · rw [show rmWsCommaRevAux false (a :: rest) = a :: rmWsCommaRevAux false rest from by
        simp [rmWsCommaRevAux, hc]]
      simp

theorem getLast_rmWsCommaRevAux : ∀ (b : Bool) (l : List Char) (x : Char),
    l.getLast? = some x → isPyWs x = false → (rmWsCommaRevAux b l).getLast? = some x := by
  intro b l
  induction l generalizing b with
  | nil => intro x hx; cases hx
  | cons a rest ih =>
    intro x hx hnw
    cases rest with
    | nil =>
      have hxa : a = x := by simpa using hx
      subst hxa
      by_cases hc : (a == ',') = true
      · rw [show rmWsCommaRevAux b [a] = [','] from by simp [rmWsCommaRevAux, hnw, hc]]
        simp [eq_of_beq hc]
      · rw [show rmWsCommaRevAux b [a] = [a] from by simp [rmWsCommaRevAux, hnw, hc]]
        simp
    | cons b2 t =>
      have hx2 : (b2 :: t).getLast? = some x := by simpa using hx
      by_cases hbw : (b && isPyWs a) = true
      · rw [show rmWsCommaRevAux b (a :: b2 :: t) = rmWsCommaRevAux true (b2 :: t) from by
          simp [rmWsCommaRevAux, hbw]]
        exact ih true x hx2 hnw
      · by_cases hc : (a == ',') = true
        · rw [show rmWsCommaRevAux b (a :: b2 :: t) = ',' :: rmWsCommaRevAux true (b2 :: t)
              from by simp [rmWsCommaRevAux, hbw, hc]]
          have hrec := ih true x hx2 hnw
          cases ho : rmWsCommaRevAux true (b2 :: t) with
          | nil => rw [ho] at hrec; cases hrec
          | cons o1 ot =>
            rw [ho] at hrec
            simpa using hrec
        · rw [show rmWsCommaRevAux b (a :: b2 :: t) = a :: rmWsCommaRevAux false (b2 :: t)
              from by simp [rmWsCommaRevAux, hbw, hc]]
          have hrec := ih false x hx2 hnw
          cases ho : rmWsCommaRevAux false (b2 :: t) with
          | nil => rw [ho] at hrec; cases hrec
          | cons o1 ot =>
            rw [ho] at hrec
            simpa using hrec

theorem noTwoWs_rmWsCommaRevAux : ∀ (b : Bool) (l : List Char),
    NoTwoWs l → NoTwoWs (rmWsCommaRevAux b l) := by
  intro b l
  induction l generalizing b with
  | nil => intro h; simpa [rmWsCommaRevAux] using h
  | cons a rest ih =>
    intro h
    by_cases hbw : (b && isPyWs a) = true
    · rw [show rmWsCommaRevAux b (a :: rest) = rmWsCommaRevAux true rest from by
        simp [rmWsCommaRevAux, hbw]]
      exact ih true h.tail
    · by_cases hc : (a == ',') = true
      · rw [show rmWsCommaRevAux b (a :: rest) = ',' :: rmWsCommaRevAux true rest from by
          simp [rmWsCommaRevAux, hbw, hc]]
        refine List.chain'_cons'.mpr ⟨fun y hy => ?_, ih true h.tail⟩
        have := head_rmWsCommaRevAux_true rest y hy
        simp [this]
      · rw [show rmWsCommaRevAux b (a :: rest) = a :: rmWsCommaRevAux false rest from by
          simp [rmWsCommaRevAux, hbw, hc]]
        refine List.chain'_cons'.mpr ⟨fun y hy => ?_, ih false h.tail⟩
        rw [head_rmWsCommaRevAux_false] at hy
        exact (List.chain'_cons'.mp h).1 y hy

theorem noCommaWs_rmWsCommaRevAux : ∀ (b : Bool) (l : List Char),
    NoCommaWs (rmWsCommaRevAux b l) := by
  intro b l
  induction l generalizing b with
  | nil => simp [rmWsCommaRevAux, NoCommaWs]
  | cons a rest ih =>
    by_cases hbw : (b && isPyWs a) = true
    · rw [show rmWsCommaRevAux b (a :: rest) = rmWsCommaRevAux true rest from by
        simp [rmWsCommaRevAux, hbw]]
      exact ih true
    · by_cases hc : (a == ',') = true
      · rw [show rmWsCommaRevAux b (a :: rest) = ',' :: rmWsCommaRevAux true rest from by
          simp [rmWsCommaRevAux, hbw, hc]]
        refine List.chain'_cons'.mpr ⟨fun y hy => ?_, ih true⟩
        have := head_rmWsCommaRevAux_true rest y hy
        simp [this]
      · rw [show rmWsCommaRevAux b (a :: rest) = a :: rmWsCommaRevAux false rest from by
          simp [rmWsCommaRevAux, hbw, hc]]
        refine List.chain'_cons'.mpr ⟨fun y hy => ?_, ih false⟩
        have ha : ¬(a = ',') := by
          intro he
          rw [he] at hc
          simp at hc
        simp [ha]

theorem rmWsComma_noWsComma (l : List Char) : NoWsComma (rmWsComma l) := by
  unfold rmWsComma NoWsComma
  rw [List.chain'_reverse]
  exact (noCommaWs_rmWsCommaRevAux false l.reverse).imp
    (fun a b hab hfl => hab ⟨hfl.2, hfl.1⟩)

theorem noTwoWs_reverse (l : List Char) (h : NoTwoWs l) : NoTwoWs l.reverse := by
  unfold NoTwoWs
  rw [List.chain'_reverse]
  exact h.imp (fun a b hab hfl => hab ⟨hfl.2, hfl.1⟩)

theorem rmWsComma_noTwoWs (l : List Char) (h : NoTwoWs l) : NoTwoWs (rmWsComma l) := by
  unfold rmWsComma
  have h2 := noTwoWs_rmWsCommaRevAux false l.reverse (noTwoWs_reverse l h)
  unfold NoTwoWs
  rw [List.chain'_reverse]
  exact h2.imp (fun a b hab hfl => hab ⟨hfl.2, hfl.1⟩)

theorem rmWsComma_stripped (l : List Char) (h : Stripped l) : Stripped (rmWsComma l) := by
  constructor
  · intro c hc
    unfold rmWsComma at hc
    rw [List.head?_reverse] at hc
    cases hl : l.head? with
    | none =>
      cases l with
      | nil => simp [rmWsCommaRevAux] at hc
      | cons a t => simp at hl
    | some h0 =>
      have hnw := h.1 h0 hl
      have hg : l.reverse.getLast? = some h0 := by
        rw [List.getLast?_reverse]
        exact hl
      rw [getLast_rmWsCommaRevAux false l.reverse h0 hg hnw] at hc
      cases hc
      exact hnw
  · intro c hc
    unfold rmWsComma at hc
    rw [List.getLast?_reverse, head_rmWsCommaRevAux_false, List.head?_reverse] at hc
    exact h.2 c hc

theorem allSpaceWs_of_sublist {l m : List Char} (hs : List.Sublist m l) (h : AllSpaceWs l) :
    AllSpaceWs m :=
  fun c hc hw => h c (hs.subset hc) hw

theorem lowerStable_of_subset {l m : List Char} (hs : ∀ c ∈ m, c ∈ l) (h : LowerStable l) :
    LowerStable m :=
  fun c hc => h c (hs c hc)

theorem noBacktick_of_subset {l m : List Char} (hs : ∀ c ∈ m, c ∈ l) (h : NoBacktick l) :
    NoBacktick m :=
  fun hc => h (hs backtick hc)

theorem ppStage9_stripped (l : List Char) (h : Stripped l) : Stripped (ppStage9 l) := by
  unfold ppStage9
  by_cases hb : (l.getLast? == some ';') = true
  · rw [if_pos hb]
    exact stripBoth_stripped _
  · rw [if_neg hb]
    exact h

theorem noBacktick_ppStage6 (l : List Char) : NoBacktick (ppStage6 l) := by
  intro hc
  have := (List.mem_filter.mp hc).2
  simp at this

theorem noTwoWs_ppStage7 (x : List Char) : NoTwoWs (ppStage7 x) :=
  chain'_stripBoth _ (noTwoWs_collapseWsAux false _)

theorem allSpaceWs_ppStage7 (x : List Char) : AllSpaceWs (ppStage7 x) :=
  allSpaceWs_of_sublist (stripBoth_sublist _) (allSpaceWs_collapseWsAux false _)

theorem stripped_ppStage7 (x : List Char) : Stripped (ppStage7 x) :=
  stripBoth_stripped _

theorem lowerStable_ppStage7 (x : List Char) (h : LowerStable x) :
    LowerStable (ppStage7 x) := by
  intro c hc
  rcases mem_ppStage7 _ c hc with h2 | h2
  · exact h c h2
  · rw [h2]
    exact lowerChar_space

theorem noBacktick_ppStage7 (x : List Char) (h : NoBacktick x) :
    NoBacktick (ppStage7 x) := by
  intro hc
  rcases mem_ppStage7 _ backtick hc with h2 | h2
  · exact h h2
  · exact absurd h2.symm (by decide)

theorem lowerStable_removeFences (x : List Char) (h : LowerStable x) :
    LowerStable (removeFences x) :=
  lowerStable_of_subset (fun _ hc => (removeFences_sublist _).subset hc) h

theorem lowerStable_stripSqlLabel (x : List Char) (h : LowerStable x) :
    LowerStable (stripSqlLabel x) :=
  lowerStable_of_subset (fun _ hc => (stripSqlLabel_sublist _).subset hc) h

theorem lowerStable_ppStage6 (x : List Char) (h : LowerStable x) :
    LowerStable (ppStage6 x) :=
  lowerStable_of_subset (fun _ hc => (List.filter_sublist _).subset hc) h

theorem lowerStable_rmWsComma (x : List Char) (h : LowerStable x) :
    LowerStable (rmWsComma x) :=
  lowerStable_of_subset (fun _ hc => (rmWsComma_sublist _).subset hc) h

theorem lowerStable_ppStage9 (x : List Char) (h : LowerStable x) :
    LowerStable (ppStage9 x) :=
  lowerStable_of_subset (fun _ hc => (ppStage9_sublist _).subset hc) h

theorem noBacktick_rmWsComma (x : List Char) (h : NoBacktick x) :
    NoBacktick (rmWsComma x) :=
  noBacktick_of_subset (fun _ hc => (rmWsComma_sublist _).subset hc) h

theorem noBacktick_ppStage9 (x : List Char) (h : NoBacktick x) :
    NoBacktick (ppStage9 x) :=
  noBacktick_of_subset (fun _ hc => (ppStage9_sublist _).subset hc) h

theorem allSpaceWs_rmWsComma (x : List Char) (h : AllSpaceWs x) :
    AllSpaceWs (rmWsComma x) :=
  allSpaceWs_of_sublist (rmWsComma_sublist _) h

theorem allSpaceWs_ppStage9 (x : List Char) (h : AllSpaceWs x) :
    AllSpaceWs (ppStage9 x) :=
  allSpaceWs_of_sublist (ppStage9_sublist _) h

theorem dropWhile_eq_self_of_head (p : Char → Bool) (l : List Char)
    (h : ∀ c, l.head? = some c → p c = false) : l.dropWhile p = l := by
  cases l with
  | nil => rfl
  | cons a rest => exact List.dropWhile_cons_of_neg (by simp [h a rfl])

theorem stripBoth_eq_self (l : List Char) (h : Stripped l) : stripBoth l = l := by
  unfold stripBoth
  rw [dropWhile_eq_self_of_head isPyWs l (fun c hc => h.1 c hc)]
  rw [dropWhile_eq_self_of_head isPyWs l.reverse (fun c hc => by
    rw [List.head?_reverse] at hc
    exact h.2 c hc)]
  exact List.reverse_reverse l

theorem map_lowerChar_eq_self (l : List Char) (h : LowerStable l) : l.map lowerChar = l := by
  induction l with
  | nil => rfl
  | cons a rest ih =>
    rw [List.map_cons, h a (List.mem_cons_self a rest),
      ih (fun c hc => h c (List.mem_cons_of_mem a hc))]

theorem ppStage2_eq_self (l : List Char) (hLS : LowerStable l) (hSt : Stripped l) :
    ppStage2 l = l := by
  unfold ppStage2
  rw [stripBoth_eq_self l hSt, map_lowerChar_eq_self l hLS]

theorem take_head_of_cons {a : Char} {rest pat : List Char} (m : Nat)
    (he : (a :: rest).take (m + 1) = pat) : pat.head? = some a := by
  rw [← he]
  simp

theorem removeFencesAux_eq_self : ∀ (n : Nat) (l : List Char),
    NoBacktick l → removeFencesAux n l = l := by
  intro n
  induction n with
  | zero => intro l _; rfl
  | succ m ih =>
    intro l h
    cases l with
    | nil => rfl
    | cons a rest =>
      have ha : a ≠ backtick := fun he => h (he ▸ List.mem_cons_self a rest)
      have h6 : ¬(((a :: rest).take 6 == ("```sql").data) = true) := by
        intro hb
        have he := take_head_of_cons 5 (eq_of_beq hb)
        have : a = backtick := by
          have hpat : ("```sql").data.head? = some backtick := by decide
          rw [hpat] at he
          exact (Option.some.injEq _ _ ▸ he).symm
        exact ha this
      have h3 : ¬(((a :: rest).take 3 == ("```").data) = true) := by
        intro hb
        have he := take_head_of_cons 2 (eq_of_beq hb)
        have : a = backtick := by
          have hpat : ("```").data.head? = some backtick := by decide
          rw [hpat] at he
          exact (Option.some.injEq _ _ ▸ he).symm
        exact ha this
      have heq : removeFencesAux (m + 1) (a :: rest) = a :: removeFencesAux m rest := by
        simp only [removeFencesAux]
        rw [if_neg h6, if_neg h3]
      rw [heq, ih rest (fun hm => h (List.mem_cons_of_mem a hm))]

theorem removeFences_eq_self (l : List Char) (h : NoBacktick l) : removeFences l = l :=
  removeFencesAux_eq_self _ _ h

theorem stripSqlLabel_eq_self (l : List Char) (h : l.take 3 ≠ ("sql").data) :
    stripSqlLabel l = l := by
  unfold stripSqlLabel
  rw [if_neg (fun hb => h (eq_of_beq hb))]

theorem ppStage6_eq_self (l : List Char) (h : NoBacktick l) : ppStage6 l = l := by
  unfold ppStage6
  apply List.filter_eq_self.mpr
  intro c hc
  simp only [Bool.not_eq_true']
  exact beq_eq_false_iff_ne.mpr (fun he => h (he ▸ hc))

theorem collapseWsAux_eq_self (l : List Char) (hA : AllSpaceWs l) (hN : NoTwoWs l) :
    collapseWsAux false l = l ∧
    ((∀ c, l.head? = some c → isPyWs c = false) → collapseWsAux true l = l) := by
  induction l with
  | nil => exact ⟨rfl, fun _ => rfl⟩
  | cons a rest ih =>
    have hA2 : AllSpaceWs rest := fun x hx hw => hA x (List.mem_cons_of_mem a hx) hw
    have hN2 : NoTwoWs rest := hN.tail
    obtain ⟨ih1, ih2⟩ := ih hA2 hN2
    by_cases hw : isPyWs a = true
    · have hsp : a = ' ' := hA a (List.mem_cons_self a rest) hw
      have hresthead : ∀ d, rest.head? = some d → isPyWs d = false := by
        intro d hd
        cases rest with
        | nil => cases hd
        | cons e t =>
          have hde : e = d := by simpa using hd
          rw [← hde]
          have h1 := (List.chain'_cons.mp hN).1
          by_contra hcon
          have he : isPyWs e = true := by
            revert hcon
            cases (isPyWs e) <;> simp
          exact h1 ⟨hw, he⟩
      refine ⟨?_, fun hhead => absurd hw (by simp [hhead a rfl])⟩
      rw [show collapseWsAux false (a :: rest) = ' ' :: collapseWsAux true rest from by
        simp [collapseWsAux, hw]]
      rw [ih2 hresthead, hsp]
    · constructor
      · rw [show collapseWsAux false (a :: rest) = a :: collapseWsAux false rest from by
          simp [collapseWsAux, hw]]
        rw [ih1]
      · intro _
        rw [show collapseWsAux true (a :: rest) = a :: collapseWsAux false rest from by
          simp [collapseWsAux, hw]]
        rw [ih1]

theorem ppStage7_eq_self (l : List Char) (hA : AllSpaceWs l) (hN : NoTwoWs l)
    (hS : Stripped l) : ppStage7 l = l := by
  unfold ppStage7 collapseCore
  rw [(collapseWsAux_eq_self l hA hN).1, stripBoth_eq_self l hS]

theorem rmWsCommaRevAux_eq_self : ∀ (b : Bool) (l : List Char), NoCommaWs l →
    (b = true → ∀ c, l.head? = some c → isPyWs c = false) → rmWsCommaRevAux b l = l := by
  intro b l
  induction l generalizing b with
  | nil => intro _ _; rfl
  | cons a rest ih =>
    intro hN hH
    have hbw : (b && isPyWs a) = false := by
      cases b with
      | false => rfl
      | true => simp [hH rfl a rfl]
    by_cases hc : (a == ',') = true
    · have ha := eq_of_beq hc
      rw [show rmWsCommaRevAux b (a :: rest) = ',' :: rmWsCommaRevAux true rest from by
        simp [rmWsCommaRevAux, hbw, hc]]
      have hresthead : ∀ d, rest.head? = some d → isPyWs d = false := by
        intro d hd
        cases rest with
        | nil => cases hd
        | cons e t =>
          have hde : e = d := by simpa using hd
          rw [← hde]
          have h1 := (List.chain'_cons.mp hN).1
          by_contra hcon
          have he : isPyWs e = true := by
            revert hcon
            cases (isPyWs e) <;> simp
          exact h1 ⟨ha, he⟩
      rw [ih true hN.tail (fun _ => hresthead), ha]
    · rw [show rmWsCommaRevAux b (a :: rest) = a :: rmWsCommaRevAux false rest from by
        simp [rmWsCommaRevAux, hbw, hc]]
      rw [ih false hN.tail (fun hf => absurd hf Bool.false_ne_true)]

theorem noCommaWs_reverse_of_noWsComma (l : List Char) (h : NoWsComma l) :
    NoCommaWs l.reverse := by
  unfold NoCommaWs
  rw [List.chain'_reverse]
  exact h.imp (fun a b hab hfl => hab ⟨hfl.2, hfl.1⟩)

theorem rmWsComma_eq_self (l : List Char) (h : NoWsComma l) : rmWsComma l = l := by
  unfold rmWsComma
  rw [rmWsCommaRevAux_eq_self false l.reverse (noCommaWs_reverse_of_noWsComma l h)
    (fun hb => absurd hb Bool.false_ne_true)]
  exact List.reverse_reverse l

theorem ppStage9_eq_self (l : List Char) (h : l.getLast? ≠ some ';') : ppStage9 l = l := by
  unfold ppStage9
  rw [if_neg (fun hb => h (eq_of_beq hb))]

theorem noTwoWs_ppStage9 (x : List Char) (h : NoTwoWs x) : NoTwoWs (ppStage9 x) :=
  chain'_ppStage9 _ h

theorem noWsComma_ppStage9 (x : List Char) (h : NoWsComma x) : NoWsComma (ppStage9 x) :=
  chain'_ppStage9 _ h

attribute [irreducible] LowerStable NoBacktick AllSpaceWs NoTwoWs NoWsComma NoCommaWs Stripped

/-- Shape invariants of every normalizer output: all characters are
lower-case-stable, no backticks, all whitespace consists of single plain
spaces, neither end is whitespace, and no whitespace precedes a comma. -/
theorem ppList_shape (l : List Char) :
    LowerStable (ppList l) ∧ NoBacktick (ppList l) ∧ AllSpaceWs (ppList l) ∧
    NoTwoWs (ppList l) ∧ Stripped (ppList l) ∧ NoWsComma (ppList l) := by
  refine ⟨?_, ?_, ?_, ?_, ?_, ?_⟩
  · exact lowerStable_ppStage9 _ (lowerStable_rmWsComma _ (lowerStable_ppStage7 _
      (lowerStable_ppStage6 _ (lowerStable_removeFences _ (lowerStable_stripSqlLabel _
        (lowerStable_removeFences _ (lowerStable_ppStage2 _)))))))
  · exact noBacktick_ppStage9 _ (noBacktick_rmWsComma _ (noBacktick_ppStage7 _
      (noBacktick_ppStage6 _)))
  · exact allSpaceWs_ppStage9 _ (allSpaceWs_rmWsComma _ (allSpaceWs_ppStage7 _))
  · exact noTwoWs_ppStage9 _ (rmWsComma_noTwoWs _ (noTwoWs_ppStage7 _))
  · exact ppStage9_stripped _ (rmWsComma_stripped _ (stripped_ppStage7 _))
  · exact noWsComma_ppStage9 _ (rmWsComma_noWsComma _)

theorem string_mk_data (l : List Char) : (String.mk l).data = l := rfl

theorem postprocess_sql_data (s : String) : (postprocess_sql s).data = ppList s.data := by
  unfold postprocess_sql
  rw [string_mk_data]

theorem postprocess_sql_eq_mk (s : String) : postprocess_sql s = String.mk (ppList s.data) := by
  unfold postprocess_sql
  exact Eq.refl _

/-- C2 (amended): the SQL normalizer is idempotent on every input `s` whose
normalized form `y = postprocess_sql s` satisfies: the keyword search leaves
`y` unchanged (its first `select`/`insert` word-boundary match, if any, is at
position 0), `y` does not start with the label `sql`, and `y` does not end
with a semicolon.  (It is NOT idempotent in general: a second application can
strip another trailing semicolon, another leading `sql` label, or re-anchor
at an interior keyword, as the counterexample shows.) -/
theorem normalizer_conditionally_idempotent (s : String)
    (h1 : ppStage1 (postprocess_sql s).data = (postprocess_sql s).data)
    (h4 : (postprocess_sql s).data.take 3 ≠ ("sql").data)
    (h9 : (postprocess_sql s).data.getLast? ≠ some ';') :
    postprocess_sql (postprocess_sql s) = postprocess_sql s := by
  rw [postprocess_sql_data s] at h1 h4 h9
  obtain ⟨hLS, hNB, hAS, hNT, hSt, hNWC⟩ := ppList_shape s.data
  have e2 : ppStage2 (ppList s.data) = ppList s.data := ppStage2_eq_self _ hLS hSt
  have e3 : removeFences (ppList s.data) = ppList s.data := removeFences_eq_self _ hNB
  have e4 : stripSqlLabel (ppList s.data) = ppList s.data := stripSqlLabel_eq_self _ h4
  have e6 : ppStage6 (ppList s.data) = ppList s.data := ppStage6_eq_self _ hNB
  have e7 : ppStage7 (ppList s.data) = ppList s.data := ppStage7_eq_self _ hAS hNT hSt
  have e8 : rmWsComma (ppList s.data) = ppList s.data := rmWsComma_eq_self _ hNWC
  have e9 : ppStage9 (ppList s.data) = ppList s.data := ppStage9_eq_self _ h9
  have hfix : ppList (ppList s.data) = ppList s.data := by
    calc ppList (ppList s.data)
        = ppStage9 (rmWsComma (ppStage7 (ppStage6 (removeFences (stripSqlLabel
            (removeFences (ppStage2 (ppStage1 (ppList s.data))))))))) := rfl
      _ = ppList s.data := by rw [h1, e2, e3, e4, e3, e6, e7, e8, e9]
  rw [postprocess_sql_eq_mk (postprocess_sql s), postprocess_sql_data s, hfix,
    ← postprocess_sql_eq_mk s]

theorem normalizer_conditionally_idempotent_witness :
    postprocess_sql (postprocess_sql ("SELECT * FROM t;")) =
      postprocess_sql ("SELECT * FROM t;") :=
  normalizer_conditionally_idempotent ("SELECT * FROM t;") (by decide) (by decide) (by decide)
